import Mathlib

/-!
# Wiesel: behavior registry, script glue and deferred inspector closures

A shallow embedding of

* `include/behavior/w_behavior.hpp`  (`IBehavior`, `BehaviorsComponent`),
* `src/script/lua/w_scriptglue.cpp`  (getter and module-loader maps),
* `src/scene/w_componentutil.cpp`    (inspector actions on behaviors and models),

followed by the properties established about them.

Conventions of the embedding.

* `std::map<K, V>` is a list of entries kept strictly ascending by key, the
  order in which the C++ container iterates.  Every operation walks the
  entries with the three-way comparison of keys.
* `Reference<T>` / `Ref<T>` (`std::shared_ptr`) is an address into a heap of
  objects; `CreateReference` allocates the next address.  An address is never
  handed out twice, which is what a live `shared_ptr` guarantees for as long
  as somebody still holds the old object.
* A C++ reference to a component (`auto& c = entity.GetComponent<T>()`) is the
  slot of the component store it designates, read through the current store.
* Scalars of the math library are carried as integers: they are only stored
  and read back here, never computed with.
-/

namespace Wiesel

/-! ## `std::map` -/

namespace StdMap

variable {K V : Type} [LinearOrder K]

/-- Strictly ascending keys: the representation invariant of `std::map`. -/
def Ordered (l : List (K × V)) : Prop :=
  l.Pairwise (fun a b => a.1 < b.1)

/-- Lookup walk (`find`), on the entry list. -/
def findRaw : List (K × V) → K → Option V
  | [], _ => none
  | (k', v') :: rest, k =>
    match compare k k' with
    | .lt => none
    | .eq => some v'
    | .gt => findRaw rest k

/-- Insert-or-overwrite walk (`m[k] = v`), on the entry list. -/
def assignRaw : List (K × V) → K → V → List (K × V)
  | [], k, v => [(k, v)]
  | (k', v') :: rest, k, v =>
    match compare k k' with
    | .lt => (k, v) :: (k', v') :: rest
    | .eq => (k', v) :: rest
    | .gt => (k', v') :: assignRaw rest k v

/-- Removal walk (`erase(k)`), on the entry list. -/
def eraseRaw : List (K × V) → K → List (K × V)
  | [], _ => []
  | (k', v') :: rest, k =>
    match compare k k' with
    | .lt => (k', v') :: rest
    | .eq => rest
    | .gt => (k', v') :: eraseRaw rest k

theorem mem_assignRaw (l : List (K × V)) (k : K) (v : V) (x : K × V)
    (hx : x ∈ assignRaw l k v) : x.1 = k ∨ x ∈ l := by
  induction l with
  | nil =>
    simp only [assignRaw, List.mem_singleton] at hx
    exact Or.inl (by rw [hx])
  | cons e rest ih =>
    obtain ⟨k', v'⟩ := e
    unfold assignRaw at hx
    cases hc : compare k k' with
    | lt =>
      rw [hc] at hx
      simp only [List.mem_cons] at hx
      rcases hx with h | h | h
      · exact Or.inl (by rw [h])
      · exact Or.inr (by rw [h]; exact List.mem_cons_self _ _)
      · exact Or.inr (List.mem_cons_of_mem _ h)
    | eq =>
      rw [hc] at hx
      have hk : k = k' := compare_eq_iff_eq.mp hc
      simp only [List.mem_cons] at hx
      rcases hx with h | h
      · exact Or.inl (by rw [h, hk])
      · exact Or.inr (List.mem_cons_of_mem _ h)
    | gt =>
      rw [hc] at hx
      simp only [List.mem_cons] at hx
      rcases hx with h | h
      · exact Or.inr (by rw [h]; exact List.mem_cons_self _ _)
      · rcases ih h with h1 | h1
        · exact Or.inl h1
        · exact Or.inr (List.mem_cons_of_mem _ h1)

theorem ordered_assignRaw (l : List (K × V)) (k : K) (v : V) (h : Ordered l) :
    Ordered (assignRaw l k v) := by
  induction l with
  | nil => simp [assignRaw, Ordered]
  | cons e rest ih =>
    obtain ⟨k', v'⟩ := e
    unfold Ordered at h
    rw [List.pairwise_cons] at h
    obtain ⟨hhead, htail⟩ := h
    unfold assignRaw
    cases hc : compare k k' with
    | lt =>
      have hk : k < k' := compare_lt_iff_lt.mp hc
      show List.Pairwise _ ((k, v) :: (k', v') :: rest)
      rw [List.pairwise_cons]
      refine ⟨?_, List.pairwise_cons.mpr ⟨hhead, htail⟩⟩
      intro x hx
      simp only [List.mem_cons] at hx
      rcases hx with hx | hx
      · rw [hx]; exact hk
      · exact lt_trans hk (hhead x hx)
    | eq =>
      show List.Pairwise _ ((k', v) :: rest)
      rw [List.pairwise_cons]
      exact ⟨hhead, htail⟩
    | gt =>
      have hk : k' < k := compare_gt_iff_gt.mp hc
      show List.Pairwise _ ((k', v') :: assignRaw rest k v)
      rw [List.pairwise_cons]
      refine ⟨?_, ih htail⟩
      intro x hx
      rcases mem_assignRaw rest k v x hx with h1 | h1
      · show k' < x.1
        rw [h1]; exact hk
      · exact hhead x h1

theorem eraseRaw_sublist (l : List (K × V)) (k : K) :
    List.Sublist (eraseRaw l k) l := by
  induction l with
  | nil => simp [eraseRaw]
  | cons e rest ih =>
    obtain ⟨k', v'⟩ := e
    unfold eraseRaw
    cases hc : compare k k' with
    | lt => exact List.Sublist.refl _
    | eq => exact List.sublist_cons_self _ _
    | gt => exact List.Sublist.cons₂ _ ih

theorem ordered_eraseRaw (l : List (K × V)) (k : K) (h : Ordered l) :
    Ordered (eraseRaw l k) :=
  List.Pairwise.sublist (eraseRaw_sublist l k) h

end StdMap

/-- A `std::map<K, V>`: its entries in iteration order, with the invariant
that keys ascend strictly (so no key occurs twice). -/
structure StdMap (K V : Type) [LinearOrder K] where
  entries : List (K × V)
  ordered : StdMap.Ordered entries

namespace StdMap

variable {K V : Type} [LinearOrder K]

/-- The empty map (`= {}`). -/
def empty : StdMap K V := ⟨[], List.Pairwise.nil⟩

/-- Lookup by key (`find`): the mapped value, if the key is present. -/
def find? (m : StdMap K V) (k : K) : Option V := findRaw m.entries k

/-- Membership test (`contains`). -/
def contains (m : StdMap K V) (k : K) : Bool := (m.find? k).isSome

/-- Assignment through the subscript (`m[k] = v`): inserts the key when it is
absent, overwrites the mapped value when it is present. -/
def assign (m : StdMap K V) (k : K) (v : V) : StdMap K V :=
  ⟨assignRaw m.entries k v, ordered_assignRaw m.entries k v m.ordered⟩

/-- Removal by key (`erase(k)`): never fails, an absent key removes nothing. -/
def erase (m : StdMap K V) (k : K) : StdMap K V :=
  ⟨eraseRaw m.entries k, ordered_eraseRaw m.entries k m.ordered⟩

/-- Reading through the subscript (`m[k]` as an rvalue): the mapped value of a
present key; an absent key is first inserted with the value-initialised
`dflt`, which is then returned.  The second component is the map afterwards. -/
def subscript (m : StdMap K V) (k : K) (dflt : V) : V × StdMap K V :=
  match m.find? k with
  | some v => (v, m)
  | none => (dflt, m.assign k dflt)

/-- Keys in iteration order. -/
def keys (m : StdMap K V) : List K := m.entries.map Prod.fst

/-- Number of entries (`size`). -/
def size (m : StdMap K V) : Nat := m.entries.length

end StdMap

/-! ## Behaviors (`w_behavior.hpp`) -/

/-- Modelled from the spec: `Entity` (declared in scene/w_entity.hpp, which is
not available here) is a stable handle into the component store of a scene;
it is built from the pair `{entityHandle, engineScene}` and owns nothing. -/
structure Entity where
  m_EntityHandle : Nat
  m_Scene : Nat
deriving DecidableEq, Repr

/-- The data members of `class IBehavior`. -/
structure IBehavior where
  m_Name : String
  m_Entity : Entity
  m_File : String
  m_InternalBehavior : Bool
  m_Enabled : Bool
  m_Unset : Bool
deriving DecidableEq, Repr

namespace IBehavior

/-- Constructor `IBehavior(name, entity, file)`: a unit backed by a script file. -/
def ofFile (name : String) (entity : Entity) (file : String) : IBehavior :=
  { m_Name := name, m_Entity := entity, m_File := file,
    m_InternalBehavior := false, m_Enabled := true, m_Unset := false }

/-- Constructor `IBehavior(name, entity)`: a natively defined unit. -/
def ofNative (name : String) (entity : Entity) : IBehavior :=
  { m_Name := name, m_Entity := entity, m_File := "Internal",
    m_InternalBehavior := true, m_Enabled := true, m_Unset := false }

/-- Member `GetEntity`: the value returned and the object afterwards. -/
def GetEntity (b : IBehavior) : Entity × IBehavior := (b.m_Entity, b)

/-- Member `GetName`: the value returned and the object afterwards. -/
def GetName (b : IBehavior) : String × IBehavior := (b.m_Name, b)

/-- Member `IsInternalBehavior`: the value returned and the object afterwards. -/
def IsInternalBehavior (b : IBehavior) : Bool × IBehavior := (b.m_InternalBehavior, b)

/-- Member `GetFile`: the value returned and the object afterwards. -/
def GetFile (b : IBehavior) : String × IBehavior := (b.m_File, b)

/-- Member `IsEnabled`: the value returned and the object afterwards. -/
def IsEnabled (b : IBehavior) : Bool × IBehavior := (b.m_Enabled, b)

/-- Modelled from the spec: `SetEnabled` is only declared in the header (its
body is not available here); the spec gives it as a pure toggle of dispatch
eligibility that neither destroys nor reconstructs state. -/
def SetEnabled (b : IBehavior) (enabled : Bool) : IBehavior :=
  { b with m_Enabled := enabled }

end IBehavior

/-- A `Reference<IBehavior>` (shared pointer): the address of the object. -/
abbrev Reference := Nat

/-- The objects behind the shared pointers, by address. -/
abbrev Heap := List IBehavior

/-- Allocation by `CreateReference<T>(args...)`: `obj` is the object as its
constructor left it; it is placed at the next address, which is returned
together with the heap afterwards. -/
def CreateReference (heap : Heap) (obj : IBehavior) : Reference × Heap :=
  (heap.length, heap ++ [obj])

/-- The data member of `class BehaviorsComponent`. -/
structure BehaviorsComponent where
  m_Behaviors : StdMap String Reference

namespace BehaviorsComponent

/-- The default constructor `BehaviorsComponent()`: an empty registry. -/
def new : BehaviorsComponent := ⟨StdMap.empty⟩

/-- Member template `AddBehavior<T>(args...)`.  `unit` stands for `T(args...)`,
the freshly constructed object.  Returned: the handle, the heap and the
component afterwards. -/
def AddBehavior (heap : Heap) (component : BehaviorsComponent) (unit : IBehavior) :
    Reference × Heap × BehaviorsComponent :=
  let created := CreateReference heap unit
  let reference := created.1
  let heap1 := created.2
  match heap1[reference]? with
  | some obj =>
    (reference, heap1, ⟨component.m_Behaviors.assign obj.GetName.1 reference⟩)
  | none => (reference, heap1, component)

/-- A sequence of `AddBehavior` calls, in order. -/
def AddBehaviors (heap : Heap) (component : BehaviorsComponent) :
    List IBehavior → Heap × BehaviorsComponent
  | [] => (heap, component)
  | unit :: rest =>
    let r := AddBehavior heap component unit
    AddBehaviors r.2.1 r.2.2 rest

end BehaviorsComponent

/-- Index of the last element of `units` named `name`, if there is one. -/
def lastCall : List IBehavior → String → Option Nat
  | [], _ => none
  | unit :: rest, name =>
    match lastCall rest name with
    | some i => some (i + 1)
    | none => if unit.m_Name = name then some 0 else none

/-- Modelled from the spec: `LuaBehavior` (script/lua/w_luabehavior.hpp is not
available here) is the scripted variant of a unit, created from a script file.
Its constructor `LuaBehavior(entity, file)` goes through
`IBehavior(name, entity, file)`; `luaName entity file` is the name it passes. -/
def LuaBehavior (luaName : Entity → String → String) (entity : Entity) (file : String) :
    IBehavior :=
  IBehavior.ofFile (luaName entity file) entity file

/-- A call `ref->SetEnabled(enabled)` through a shared pointer. -/
def callSetEnabled (heap : Heap) (ref : Reference) (enabled : Bool) : Heap :=
  match heap[ref]? with
  | some obj => heap.set ref (obj.SetEnabled enabled)
  | none => heap

/-! ## The component store -/

/-- A `glm::vec3`. -/
structure vec3 where
  x : Int
  y : Int
  z : Int
deriving DecidableEq, Repr

/-- Modelled from the spec: `TransformComponent` (declared outside these
sources); the members are those the inspector edits. -/
structure TransformComponent where
  Position : vec3
  Rotation : vec3
  Scale : vec3
  IsChanged : Bool
deriving DecidableEq, Repr

/-- Modelled from the spec: `ModelComponent` (declared outside these sources);
the members are those the inspector edits. -/
structure ModelComponent where
  ModelPath : String
  ReceiveShadows : Bool
deriving DecidableEq, Repr

/-- The component types the code below asks the store about. -/
inductive ComponentType where
  | TransformComponent
  | ModelComponent
  | BehaviorsComponent
deriving DecidableEq, Repr

/-- What the store holds for one live entity. -/
structure Components where
  transform : Option TransformComponent
  model : Option ModelComponent
  behaviors : Option BehaviorsComponent

/-- The state the main thread owns: the objects behind shared pointers and the
component store of the scene, keyed by entity handle.  A destroyed entity has
no entry. -/
structure World where
  heap : Heap
  registry : StdMap Nat Components

namespace Components

/-- Whether a component of type `T` is present. -/
def has (c : Components) : ComponentType → Bool
  | .TransformComponent => c.transform.isSome
  | .ModelComponent => c.model.isSome
  | .BehaviorsComponent => c.behaviors.isSome

end Components

namespace Entity

/-- Modelled from the spec: `entity.HasComponent<T>()`, a query of the store
by entity handle. -/
def HasComponent (T : ComponentType) (entity : Entity) (w : World) : Bool :=
  match w.registry.find? entity.m_EntityHandle with
  | some c => c.has T
  | none => false

/-- Modelled from the spec: `entity.GetComponent<TransformComponent>()`; `none`
is the loud failure on an entity that lacks the component. -/
def GetTransformComponent (entity : Entity) (w : World) : Option TransformComponent :=
  match w.registry.find? entity.m_EntityHandle with
  | some c => c.transform
  | none => none

/-- Modelled from the spec: `entity.GetComponent<ModelComponent>()`. -/
def GetModelComponent (entity : Entity) (w : World) : Option ModelComponent :=
  match w.registry.find? entity.m_EntityHandle with
  | some c => c.model
  | none => none

/-- Modelled from the spec: `entity.GetComponent<BehaviorsComponent>()`. -/
def GetBehaviorsComponent (entity : Entity) (w : World) : Option BehaviorsComponent :=
  match w.registry.find? entity.m_EntityHandle with
  | some c => c.behaviors
  | none => none

end Entity

namespace World

/-- A write through a `TransformComponent&` that designates the slot of
`handle`. -/
def storeTransform (w : World) (handle : Nat) (t : TransformComponent) : World :=
  match w.registry.find? handle with
  | some c => { w with registry := w.registry.assign handle { c with transform := some t } }
  | none => w

/-- A write through a `ModelComponent&` that designates the slot of `handle`. -/
def storeModel (w : World) (handle : Nat) (m : ModelComponent) : World :=
  match w.registry.find? handle with
  | some c => { w with registry := w.registry.assign handle { c with model := some m } }
  | none => w

/-- A write through a `BehaviorsComponent&` that designates the slot of
`handle`. -/
def storeBehaviors (w : World) (handle : Nat) (b : BehaviorsComponent) : World :=
  match w.registry.find? handle with
  | some c => { w with registry := w.registry.assign handle { c with behaviors := some b } }
  | none => w

end World

/-! ## Deferred closures and inspector actions (`w_componentutil.cpp`) -/

/-- The operations a deferred closure performs, in the order performed. -/
inductive Op where
  | HasComponent (T : ComponentType) (entityHandle : Nat)
  | GetComponent (T : ComponentType) (entityHandle : Nat)
  | LoadModel (aiScene : Nat) (file : String)
  | erase (name : String)
  | CreateReference (address : Nat)
  | insert (name : String)
deriving DecidableEq, Repr

/-- Outcome of running a closure on the main thread. -/
structure Ran where
  faulted : Bool
  world : World
  trace : List Op

/-- The closure handed to `SubmitToMainThread` by the model inspector
(captures `aiScene, entityHandle, engineScene, file`).  `LoadModel` stands for
`Engine::LoadModel`, which updates the transform and the model in place. -/
def modelLoadTask
    (LoadModel : Nat → TransformComponent → ModelComponent → String →
      TransformComponent × ModelComponent)
    (aiScene entityHandle engineScene : Nat) (file : String) (w : World) : Ran :=
  let entity : Entity := ⟨entityHandle, engineScene⟩
  if entity.HasComponent .ModelComponent w then
    match entity.GetTransformComponent w with
    | none =>
      ⟨true, w, [.HasComponent .ModelComponent entityHandle,
        .GetComponent .TransformComponent entityHandle]⟩
    | some transform =>
      match entity.GetModelComponent w with
      | none =>
        ⟨true, w, [.HasComponent .ModelComponent entityHandle,
          .GetComponent .TransformComponent entityHandle,
          .GetComponent .ModelComponent entityHandle]⟩
      | some model =>
        let loaded := LoadModel aiScene transform model file
        ⟨false, (w.storeTransform entityHandle loaded.1).storeModel entityHandle loaded.2,
          [.HasComponent .ModelComponent entityHandle,
            .GetComponent .TransformComponent entityHandle,
            .GetComponent .ModelComponent entityHandle,
            .LoadModel aiScene file]⟩
  else
    ⟨false, w, [.HasComponent .ModelComponent entityHandle]⟩

/-- The closure handed to `SubmitToMainThread` by the behavior inspector after
a new script file was chosen (captures `engineScene, entityHandle, name, file`). -/
def scriptReplaceTask (luaName : Entity → String → String)
    (engineScene entityHandle : Nat) (name file : String) (w : World) : Ran :=
  let entity : Entity := ⟨entityHandle, engineScene⟩
  if entity.HasComponent .BehaviorsComponent w then
    match entity.GetBehaviorsComponent w with
    | none =>
      ⟨true, w, [.HasComponent .BehaviorsComponent entityHandle,
        .GetComponent .BehaviorsComponent entityHandle]⟩
    | some component =>
      let erased := component.m_Behaviors.erase name
      let created := CreateReference w.heap (LuaBehavior luaName entity file)
      let newBehavior := created.1
      let newName :=
        match created.2[newBehavior]? with
        | some obj => obj.GetName.1
        | none => name
      let stored : BehaviorsComponent := ⟨erased.assign newName newBehavior⟩
      ⟨false, ({ w with heap := created.2 } : World).storeBehaviors entityHandle stored,
        [.HasComponent .BehaviorsComponent entityHandle,
          .GetComponent .BehaviorsComponent entityHandle,
          .erase name, .CreateReference newBehavior, .insert newName]⟩
  else
    ⟨false, w, [.HasComponent .BehaviorsComponent entityHandle]⟩

/-- What the immediate-mode widgets report during one call of
`RenderBehaviorComponentImGui`. -/
structure Frame where
  -- ClosableTreeNode returned true: the node is open
  treeOpen : Bool
  -- ClosableTreeNode cleared `visible`: the close button was used
  closeRequested : Bool
  -- Checkbox("Enabled") returned true: it flipped the value shown
  enabledToggled : Bool
  -- Button("...") returned true
  browseClicked : Bool
  -- Button("Reload") returned true
  reloadClicked : Bool
deriving DecidableEq, Repr

/-- The state a call of `RenderBehaviorComponentImGui` reads and writes:
its function-local `static bool visible`, the heap, the component passed by
reference, and the file dialogs opened so far (each with the unit name its
callback captured). -/
structure Inspector where
  visible : Bool
  heap : Heap
  component : BehaviorsComponent
  dialogs : List String

/-- The `Reload` branch: statements from `std::string name = ...` up to the
assignment `component.m_Behaviors[name] = newBehavior`. -/
def reloadBranch (luaName : Entity → String → String) (s : Inspector)
    (behavior : Reference) (entity : Entity) : Option Inspector :=
  match s.heap[behavior]? with
  | none => none
  | some b =>
    let name := b.GetName.1
    let file := b.GetFile.1
    let wasEnabled := b.IsEnabled.1
    let erased := s.component.m_Behaviors.erase name
    let created := CreateReference s.heap (LuaBehavior luaName entity file)
    let newBehavior := created.1
    let heap2 := callSetEnabled created.2 newBehavior wasEnabled
    some { s with heap := heap2, component := ⟨erased.assign name newBehavior⟩ }

/-- The specialisation `RenderBehaviorComponentImGui(component, behavior, entity)`.
Returns the value returned by the function and the state afterwards; `none`
stands for a dangling `behavior`.  Rendering of exposed script parameters
touches neither the registry nor the members of `IBehavior` and is left out. -/
def RenderBehaviorComponentImGui (luaName : Entity → String → String) (ui : Frame)
    (s : Inspector) (behavior : Reference) (entity : Entity) : Option (Bool × Inspector) :=
  -- the label of the tree node is read through `behavior` before anything else
  match s.heap[behavior]? with
  | none => none
  | some _ =>
    let s0 : Inspector := if ui.closeRequested then { s with visible := false } else s
    let closing (t : Inspector) : Option (Bool × Inspector) :=
      if !t.visible then
        match t.heap[behavior]? with
        | none => none
        | some b =>
          some (true, { t with component := ⟨t.component.m_Behaviors.erase b.GetName.1⟩,
                               visible := true })
      else some (false, t)
    if ui.treeOpen then
      match s0.heap[behavior]? with
      | none => none
      | some b =>
        let enabled := b.IsEnabled.1
        let s1 : Inspector :=
          if ui.enabledToggled then
            { s0 with heap := callSetEnabled s0.heap behavior (!enabled) }
          else s0
        if !b.IsInternalBehavior.1 then
          let s2 : Inspector :=
            if ui.browseClicked then { s1 with dialogs := s1.dialogs ++ [b.GetName.1] }
            else s1
          if ui.reloadClicked then
            match reloadBranch luaName s2 behavior entity with
            | none => none
            | some s3 => some (true, s3)
          else closing s2
        else closing s1
    else closing s0

/-- One call of the handler during a pass: the key of the entry handled, the
value the handler returned, and `m_Behaviors` as the handler left it. -/
structure Visit where
  name : String
  returned : Bool
  after : BehaviorsComponent

/-- The range-for of `RenderComponentImGui(BehaviorsComponent&, Entity)` from
the entry the iterator stands on: the handler is called on each entry in
turn and the loop breaks as soon as it returns true.  `ui name` is what the
widgets report during the call that handles `name`.  Returned: the state after
the loop and the calls made, in order; `none` stands for a dangling handle. -/
def renderEntries (luaName : Entity → String → String) (ui : String → Frame)
    (entity : Entity) : List (String × Reference) → Inspector →
    Option (Inspector × List Visit)
  | [], s => some (s, [])
  | entry :: rest, s =>
    match RenderBehaviorComponentImGui luaName (ui entry.1) s entry.2 entity with
    | none => none
    | some (true, s1) => some (s1, [⟨entry.1, true, s1.component⟩])
    | some (false, s1) =>
      match renderEntries luaName ui entity rest s1 with
      | none => none
      | some (s2, visits) => some (s2, ⟨entry.1, false, s1.component⟩ :: visits)

/-- The specialisation `RenderComponentImGui(BehaviorsComponent&, Entity)`: one
inspector pass over `component.m_Behaviors`, started at its first entry. -/
def RenderComponentImGui (luaName : Entity → String → String) (ui : String → Frame)
    (s : Inspector) (entity : Entity) : Option (Inspector × List Visit) :=
  renderEntries luaName ui entity s.component.m_Behaviors.entries s

/-- Modelled from the spec: `Application::SubmitToMainThread(closure)` (the
application class is not available here) appends the closure to the queue the
main thread drains once per frame; it runs nothing itself. -/
def SubmitToMainThread (queue : List (World → Ran)) (closure : World → Ran) :
    List (World → Ran) :=
  queue ++ [closure]

/-- The callback the behavior inspector hands to `Dialogs::OpenFileDialog`
(captures `entity` and `name`), called with the file that was chosen: it reads
scene and handle off the entity and submits the replacing closure. -/
def scriptDialogCallback (luaName : Entity → String → String) (entity : Entity)
    (name : String) (file : String) (queue : List (World → Ran)) : List (World → Ran) :=
  let engineScene := entity.m_Scene
  let entityHandle := entity.m_EntityHandle
  SubmitToMainThread queue (scriptReplaceTask luaName engineScene entityHandle name file)

/-! ## Script glue (`w_scriptglue.cpp`) -/

/-- Modelled from the spec: `ScriptTransformComponent` (script/lua/w_scriptglue.hpp
is not available here) is the scripting-visible proxy of a transform.  It is
built from a `TransformComponent&` and keeps that reference: `m_Transform` is
the slot of the component store the reference designates. -/
structure ScriptTransformComponent where
  m_Transform : Nat
deriving DecidableEq, Repr

/-- The values a script state holds in this program: nothing, a bound native
function (by the symbol bound), a namespace of bound native functions (member
name and symbol), or a shared proxy object. -/
inductive LuaValue where
  | nil
  | cfunction (symbol : String)
  | table (members : List (String × String))
  | userdata (object : ScriptTransformComponent)
deriving DecidableEq, Repr

/-- The part of a `lua_State` this program touches: its global namespace. -/
structure lua_State where
  globals : StdMap String LuaValue

namespace luabridge

/-- Binding `luabridge::setGlobal(state, value, name)`. -/
def setGlobal (state : lua_State) (value : LuaValue) (name : String) : lua_State :=
  ⟨state.globals.assign name value⟩

/-- Binding `luabridge::getGlobal(state, name)`: a reference to the value of
the global, `nil` when it is unset. -/
def getGlobal (state : lua_State) (name : String) : LuaValue :=
  match state.globals.find? name with
  | some v => v
  | none => .nil

/-- Step `getGlobalNamespace(state).beginNamespace(name)`: opens the namespace
table of that name, a new one when there is none yet. -/
def beginNamespace (state : lua_State) (name : String) : List (String × String) :=
  match state.globals.find? name with
  | some (.table members) => members
  | _ => []

/-- Step `.addFunction(name, fn)`: binds `name` in the open namespace. -/
def addFunction (members : List (String × String)) (name symbol : String) :
    List (String × String) :=
  StdMap.assignRaw members name symbol

/-- Step `.endNamespace()`: the namespace is in place under its name. -/
def endNamespace (state : lua_State) (name : String) (members : List (String × String)) :
    lua_State :=
  ⟨state.globals.assign name (.table members)⟩

end luabridge

/-- What a C++ call can throw here. -/
inductive Thrown where
  | runtime_error (what : String)
  | bad_function_call
  | missing_component
deriving DecidableEq, Repr

/-- Outcome of calling a component getter: what was thrown if anything, the
`LuaRef` returned, and the script state afterwards. -/
structure GetterReturn where
  thrown : Option Thrown
  ref : LuaValue
  state : lua_State

/-- Modelled from the spec: the type `LuaComponentGetFn` (declared in
script/lua/w_scriptglue.hpp, not available here) is a callable taking
`(Entity, lua_State*)`, or the empty callable (`none`) that the subscript of
`s_GetterFn` value-initialises for an absent key.  The callable reads the
component store through the entity it is given. -/
abbrev LuaComponentGetFn := Option (Entity → World → lua_State → GetterReturn)

/-- Modelled from the spec: the type `LuaModuleLoaderFn` (declared in
script/lua/w_scriptglue.hpp, not available here) is a loader callback taking
the script state; it is seen as the change it makes to that state. -/
abbrev LuaModuleLoaderFn := lua_State → lua_State

/-- The two process-wide maps of the glue. -/
structure Glue where
  s_GetterFn : StdMap String LuaComponentGetFn
  s_ModuleLoader : StdMap String LuaModuleLoaderFn

namespace ScriptGlue

/-- The maps as initialised (`= {}`). -/
def initial : Glue := ⟨StdMap.empty, StdMap.empty⟩

/-- The lambda stored by `AddGetter<ScriptTransformComponent, TransformComponent>`. -/
def getterLambda (entity : Entity) (w : World) (state : lua_State) : GetterReturn :=
  match entity.GetTransformComponent w with
  | none => ⟨some .missing_component, .nil, state⟩
  | some _ =>
    -- `auto& transform`: the slot of this entity in the store
    let transform : Nat := entity.m_EntityHandle
    let state1 := luabridge.setGlobal state (.userdata ⟨transform⟩) "__currentcomponent"
    ⟨none, luabridge.getGlobal state1 "__currentcomponent", state1⟩

/-- Function template `AddGetter<ScriptWrapper, Component>(name)`, at its one
instantiation `<ScriptTransformComponent, TransformComponent>`. -/
def AddGetter (g : Glue) (name : String) : Glue :=
  { g with s_GetterFn := g.s_GetterFn.assign name (some getterLambda) }

/-- Function `GetComponentGetter(name)`: the getter returned and the maps
afterwards. -/
def GetComponentGetter (g : Glue) (name : String) : LuaComponentGetFn × Glue :=
  let r := g.s_GetterFn.subscript name none
  (r.1, { g with s_GetterFn := r.2 })

/-- Function `GenerateComponents()`. -/
def GenerateComponents (g : Glue) : Glue :=
  AddGetter g "TransformComponent"

/-- Function `RegisterModuleLoader(name, fn)`. -/
def RegisterModuleLoader (g : Glue) (name : String) (fn : LuaModuleLoaderFn) : Glue :=
  { g with s_ModuleLoader := g.s_ModuleLoader.assign name fn }

/-- The loader registered for "wiesel.def.lua": an empty body. -/
def wieselModule : LuaModuleLoaderFn := fun state => state

/-- The loader registered for "input.def.lua": namespace `input` with three
functions of `InputManager`. -/
def inputModule : LuaModuleLoaderFn := fun state =>
  let ns0 := luabridge.beginNamespace state "input"
  let ns1 := luabridge.addFunction ns0 "GetKey" "InputManager::GetKey"
  let ns2 := luabridge.addFunction ns1 "GetAxis" "InputManager::GetAxis"
  let ns3 := luabridge.addFunction ns2 "IsPressed" "InputManager::IsPressed"
  luabridge.endNamespace state "input" ns3

/-- Function `GenerateModules()`. -/
def GenerateModules (g : Glue) : Glue :=
  RegisterModuleLoader (RegisterModuleLoader g "wiesel.def.lua" wieselModule)
    "input.def.lua" inputModule

/-- Outcome of `StaticGetComponent`. -/
structure GetComponentReturn where
  thrown : Option Thrown
  ref : LuaValue
  state : lua_State
  glue : Glue

/-- Function `StaticGetComponent(str, state, behavior)`. -/
def StaticGetComponent (g : Glue) (str : String) (w : World) (state : lua_State)
    (behavior : IBehavior) : GetComponentReturn :=
  let r := g.s_GetterFn.subscript str none
  let g1 : Glue := { g with s_GetterFn := r.2 }
  match r.1 with
  | none => ⟨some .bad_function_call, .nil, state, g1⟩
  | some fn =>
    let out := fn behavior.GetEntity.1 w state
    ⟨out.thrown, out.ref, out.state, g1⟩

/-- Outcome of `RegisterModule`: what was thrown if anything, the script state
and the maps afterwards, and the loaders invoked, in order. -/
structure ModuleReturn where
  thrown : Option Thrown
  state : lua_State
  glue : Glue
  invoked : List LuaModuleLoaderFn

/-- Function `RegisterModule(name, state)`.  The first branch is the guard
`!s_ModuleLoader.contains(name)`; in the second the key is present, so the
subscript yields the stored loader and inserts nothing. -/
def RegisterModule (g : Glue) (name : String) (state : lua_State) : ModuleReturn :=
  match g.s_ModuleLoader.find? name with
  | none => ⟨some (.runtime_error ("Module with name do not exists " ++ name)), state, g, []⟩
  | some fn => ⟨none, fn state, g, [fn]⟩

end ScriptGlue

namespace ScriptTransformComponent

/-- Modelled from the spec: reading a property of the proxy goes to the live
component behind the reference. -/
def read (p : ScriptTransformComponent) (w : World) : Option TransformComponent :=
  match w.registry.find? p.m_Transform with
  | some c => c.transform
  | none => none

/-- Modelled from the spec: a mutator method of the proxy writes straight
through the reference; `f` is the change the method makes to the component. -/
def write (p : ScriptTransformComponent) (f : TransformComponent → TransformComponent)
    (w : World) : World :=
  match p.read w with
  | some t => w.storeTransform p.m_Transform (f t)
  | none => w

/-- Modelled from the spec: the mutator `SetPosition(x, y, z)`. -/
def SetPosition (p : ScriptTransformComponent) (x y z : Int) (w : World) : World :=
  p.write (fun t => { t with Position := ⟨x, y, z⟩ }) w

end ScriptTransformComponent

/-! ## Facts about `std::map` -/

namespace StdMap

variable {K V : Type} [LinearOrder K]

theorem ext_entries (m1 m2 : StdMap K V) (h : m1.entries = m2.entries) : m1 = m2 := by
  cases m1; cases m2; cases h; rfl

theorem findRaw_none_of_lt (l : List (K × V)) (k : K) (h : ∀ x ∈ l, k < x.1) :
    findRaw l k = none := by
  cases l with
  | nil => rfl
  | cons e rest =>
    obtain ⟨k', v'⟩ := e
    have hk : k < k' := h (k', v') (List.mem_cons_self _ _)
    simp [findRaw, compare_lt_iff_lt.mpr hk]

theorem compare_self (k : K) : compare k k = Ordering.eq :=
  compare_eq_iff_eq.mpr rfl

theorem findRaw_assignRaw_self (l : List (K × V)) (k : K) (v : V) :
    findRaw (assignRaw l k v) k = some v := by
  induction l with
  | nil => simp [assignRaw, findRaw, compare_self]
  | cons e rest ih =>
    obtain ⟨k', v'⟩ := e
    unfold assignRaw
    cases hc : compare k k' with
    | lt => simp [findRaw, compare_self]
    | eq => simp [findRaw, hc]
    | gt => simp [findRaw, hc, ih]

theorem findRaw_assignRaw_ne (l : List (K × V)) (k k2 : K) (v : V) (hne : k2 ≠ k) :
    findRaw (assignRaw l k v) k2 = findRaw l k2 := by
  induction l with
  | nil =>
    rcases lt_or_gt_of_ne hne with h | h
    · simp [assignRaw, findRaw, compare_lt_iff_lt.mpr h]
    · simp [assignRaw, findRaw, compare_gt_iff_gt.mpr h]
  | cons e rest ih =>
    obtain ⟨k', v'⟩ := e
    unfold assignRaw
    cases hc : compare k k' with
    | lt =>
      have hk : k < k' := compare_lt_iff_lt.mp hc
      rcases lt_or_gt_of_ne hne with h | h
      · have h2 : k2 < k' := lt_trans h hk
        simp [findRaw, compare_lt_iff_lt.mpr h, compare_lt_iff_lt.mpr h2]
      · simp [findRaw, compare_gt_iff_gt.mpr h]
    | eq =>
      have hk : k = k' := compare_eq_iff_eq.mp hc
      subst hk
      rcases lt_or_gt_of_ne hne with h | h
      · simp [findRaw, compare_lt_iff_lt.mpr h]
      · simp [findRaw, compare_gt_iff_gt.mpr h]
    | gt =>
      show findRaw ((k', v') :: assignRaw rest k v) k2 = findRaw ((k', v') :: rest) k2
      simp only [findRaw, ih]

theorem length_assignRaw (l : List (K × V)) (k : K) (v : V) :
    (assignRaw l k v).length
      = if (findRaw l k).isSome then l.length else l.length + 1 := by
  induction l with
  | nil => simp [assignRaw, findRaw]
  | cons e rest ih =>
    obtain ⟨k', v'⟩ := e
    unfold assignRaw
    cases hc : compare k k' with
    | lt => simp [findRaw, hc]
    | eq => simp [findRaw, hc]
    | gt =>
      simp only [findRaw, hc, List.length_cons, ih]
      split <;> rfl

theorem eraseRaw_of_findRaw_none (l : List (K × V)) (k : K) (h : findRaw l k = none) :
    eraseRaw l k = l := by
  induction l with
  | nil => rfl
  | cons e rest ih =>
    obtain ⟨k', v'⟩ := e
    unfold findRaw at h
    unfold eraseRaw
    cases hc : compare k k' with
    | lt => rfl
    | eq => rw [hc] at h; simp at h
    | gt =>
      rw [hc] at h
      show (k', v') :: eraseRaw rest k = (k', v') :: rest
      rw [ih h]

theorem findRaw_eraseRaw_self (l : List (K × V)) (k : K) (h : Ordered l) :
    findRaw (eraseRaw l k) k = none := by
  induction l with
  | nil => rfl
  | cons e rest ih =>
    obtain ⟨k', v'⟩ := e
    unfold Ordered at h
    rw [List.pairwise_cons] at h
    obtain ⟨hhead, htail⟩ := h
    unfold eraseRaw
    cases hc : compare k k' with
    | lt => simp [findRaw, hc]
    | eq =>
      have hk : k = k' := compare_eq_iff_eq.mp hc
      subst hk
      exact findRaw_none_of_lt rest k hhead
    | gt =>
      show findRaw ((k', v') :: eraseRaw rest k) k = none
      simp only [findRaw, hc]
      exact ih htail

theorem findRaw_eraseRaw_ne (l : List (K × V)) (k k2 : K) (h : Ordered l) (hne : k2 ≠ k) :
    findRaw (eraseRaw l k) k2 = findRaw l k2 := by
  induction l with
  | nil => rfl
  | cons e rest ih =>
    obtain ⟨k', v'⟩ := e
    unfold Ordered at h
    rw [List.pairwise_cons] at h
    obtain ⟨hhead, htail⟩ := h
    unfold eraseRaw
    cases hc : compare k k' with
    | lt => rfl
    | eq =>
      have hk : k = k' := compare_eq_iff_eq.mp hc
      subst hk
      show findRaw rest k2 = findRaw ((k, v') :: rest) k2
      rcases lt_or_gt_of_ne hne with h2 | h2
      · have hnone : findRaw rest k2 = none :=
          findRaw_none_of_lt rest k2 (fun x hx => lt_trans h2 (hhead x hx))
        simp [findRaw, compare_lt_iff_lt.mpr h2, hnone]
      · simp [findRaw, compare_gt_iff_gt.mpr h2]
    | gt =>
      show findRaw ((k', v') :: eraseRaw rest k) k2 = findRaw ((k', v') :: rest) k2
      simp only [findRaw, ih htail]

theorem length_eraseRaw (l : List (K × V)) (k : K) :
    (eraseRaw l k).length
      = if (findRaw l k).isSome then l.length - 1 else l.length := by
  induction l with
  | nil => simp [eraseRaw, findRaw]
  | cons e rest ih =>
    obtain ⟨k', v'⟩ := e
    unfold eraseRaw
    cases hc : compare k k' with
    | lt => simp [findRaw, hc]
    | eq => simp [findRaw, hc]
    | gt =>
      simp only [findRaw, hc, List.length_cons, ih]
      split
      · rename_i hs
        have hpos : 0 < rest.length := by
          cases rest with
          | nil => simp [findRaw] at hs
          | cons _ _ => simp
        omega
      · rfl

theorem mem_entries_iff (l : List (K × V)) (h : Ordered l) (k : K) (v : V) :
    (k, v) ∈ l ↔ findRaw l k = some v := by
  induction l with
  | nil => simp [findRaw]
  | cons e rest ih =>
    obtain ⟨k', v'⟩ := e
    unfold Ordered at h
    rw [List.pairwise_cons] at h
    obtain ⟨hhead, htail⟩ := h
    unfold findRaw
    cases hc : compare k k' with
    | lt =>
      have hk : k < k' := compare_lt_iff_lt.mp hc
      constructor
      · intro hm
        simp only [List.mem_cons, Prod.mk.injEq] at hm
        rcases hm with ⟨h1, _⟩ | hm
        · exact absurd h1 (ne_of_lt hk)
        · exact absurd (hhead (k, v) hm) (not_lt_of_gt hk)
      · intro hf; simp at hf
    | eq =>
      have hk : k = k' := compare_eq_iff_eq.mp hc
      subst hk
      constructor
      · intro hm
        simp only [List.mem_cons, Prod.mk.injEq] at hm
        rcases hm with ⟨_, h2⟩ | hm
        · simp [h2]
        · exact absurd (hhead (k, v) hm) (lt_irrefl k)
      · intro hf
        simp only [Option.some.injEq] at hf
        rw [hf]
        exact List.mem_cons_self _ _
    | gt =>
      have hk : k' < k := compare_gt_iff_gt.mp hc
      constructor
      · intro hm
        simp only [List.mem_cons, Prod.mk.injEq] at hm
        rcases hm with ⟨h1, _⟩ | hm
        · exact absurd h1 (ne_of_gt hk)
        · exact (ih htail).mp hm
      · intro hf
        exact List.mem_cons_of_mem _ ((ih htail).mpr hf)

theorem find?_assign_self (m : StdMap K V) (k : K) (v : V) :
    (m.assign k v).find? k = some v :=
  findRaw_assignRaw_self m.entries k v

theorem find?_assign_ne (m : StdMap K V) (k k2 : K) (v : V) (hne : k2 ≠ k) :
    (m.assign k v).find? k2 = m.find? k2 :=
  findRaw_assignRaw_ne m.entries k k2 v hne

theorem size_assign (m : StdMap K V) (k : K) (v : V) :
    (m.assign k v).size = if m.contains k then m.size else m.size + 1 :=
  length_assignRaw m.entries k v

theorem erase_of_find?_none (m : StdMap K V) (k : K) (h : m.find? k = none) :
    m.erase k = m :=
  ext_entries _ _ (eraseRaw_of_findRaw_none m.entries k h)

theorem find?_erase_self (m : StdMap K V) (k : K) : (m.erase k).find? k = none :=
  findRaw_eraseRaw_self m.entries k m.ordered

theorem find?_erase_ne (m : StdMap K V) (k k2 : K) (hne : k2 ≠ k) :
    (m.erase k).find? k2 = m.find? k2 :=
  findRaw_eraseRaw_ne m.entries k k2 m.ordered hne

theorem size_erase (m : StdMap K V) (k : K) :
    (m.erase k).size = if m.contains k then m.size - 1 else m.size :=
  length_eraseRaw m.entries k

theorem mem_entries_iff_find? (m : StdMap K V) (k : K) (v : V) :
    (k, v) ∈ m.entries ↔ m.find? k = some v :=
  mem_entries_iff m.entries m.ordered k v

theorem mem_keys_iff (m : StdMap K V) (k : K) : k ∈ m.keys ↔ m.contains k = true := by
  unfold keys contains
  rw [List.mem_map, Option.isSome_iff_exists]
  constructor
  · rintro ⟨⟨k1, v⟩, hm, hk⟩
    simp only at hk
    subst hk
    exact ⟨v, (mem_entries_iff_find? m k1 v).mp hm⟩
  · rintro ⟨v, hv⟩
    exact ⟨(k, v), (mem_entries_iff_find? m k v).mpr hv, rfl⟩

theorem keys_nodup (m : StdMap K V) : m.keys.Nodup := by
  unfold keys
  rw [List.Nodup, List.pairwise_map]
  exact List.Pairwise.imp (fun h => ne_of_lt h) m.ordered

theorem ext_find? (m1 m2 : StdMap K V) (h : ∀ k, m1.find? k = m2.find? k) : m1 = m2 := by
  apply ext_entries
  have hsub : ∀ (a b : StdMap K V), (∀ k, a.find? k = b.find? k) →
      ∀ x, x ∈ a.entries → x ∈ b.entries := by
    intro a b hab x hx
    obtain ⟨k, v⟩ := x
    exact (mem_entries_iff_find? b k v).mpr ((hab k) ▸ (mem_entries_iff_find? a k v).mp hx)
  have hperm : m1.entries.Perm m2.entries := by
    have hnd : ∀ (a : StdMap K V), a.entries.Nodup := by
      intro a
      have ho : a.entries.Pairwise (fun x y => x.1 < y.1) := a.ordered
      refine List.Pairwise.imp ?_ ho
      intro x y hxy he
      rw [he] at hxy
      exact lt_irrefl _ hxy
    exact (List.perm_ext_iff_of_nodup (hnd m1) (hnd m2)).mpr
      (fun x => ⟨hsub m1 m2 h x, hsub m2 m1 (fun k => (h k).symm) x⟩)
  haveI : IsAntisymm (K × V) (fun a b => a.1 < b.1) :=
    ⟨fun _ _ h1 h2 => absurd h1 (not_lt_of_gt h2)⟩
  exact List.eq_of_perm_of_sorted hperm m1.ordered m2.ordered

end StdMap

/-! ## `IBehavior`: construction and accessors -/

/-- C10: a unit constructed natively reports its name and entity, the sentinel
file "Internal", internal = true, enabled = true and unset = false; a unit
constructed from a script file reports its name, entity and file,
internal = false, enabled = true and unset = false; and no accessor of
`IBehavior` changes the name (nor anything else of the object). -/
theorem IBehavior_construction_and_accessors (name file : String) (entity : Entity)
    (b : IBehavior) :
    ((IBehavior.ofNative name entity).GetName.1 = name
      ∧ (IBehavior.ofNative name entity).GetEntity.1 = entity
      ∧ (IBehavior.ofNative name entity).GetFile.1 = "Internal"
      ∧ (IBehavior.ofNative name entity).IsInternalBehavior.1 = true
      ∧ (IBehavior.ofNative name entity).IsEnabled.1 = true
      ∧ (IBehavior.ofNative name entity).m_Unset = false)
    ∧ ((IBehavior.ofFile name entity file).GetName.1 = name
      ∧ (IBehavior.ofFile name entity file).GetEntity.1 = entity
      ∧ (IBehavior.ofFile name entity file).GetFile.1 = file
      ∧ (IBehavior.ofFile name entity file).IsInternalBehavior.1 = false
      ∧ (IBehavior.ofFile name entity file).IsEnabled.1 = true
      ∧ (IBehavior.ofFile name entity file).m_Unset = false)
    ∧ (b.GetEntity.2.m_Name = b.m_Name ∧ b.GetName.2.m_Name = b.m_Name
      ∧ b.IsInternalBehavior.2.m_Name = b.m_Name ∧ b.GetFile.2.m_Name = b.m_Name
      ∧ b.IsEnabled.2.m_Name = b.m_Name)
    ∧ (b.GetEntity.2 = b ∧ b.GetName.2 = b ∧ b.IsInternalBehavior.2 = b
      ∧ b.GetFile.2 = b ∧ b.IsEnabled.2 = b) := by
  refine ⟨⟨rfl, rfl, rfl, rfl, rfl, rfl⟩, ⟨rfl, rfl, rfl, rfl, rfl, rfl⟩,
    ⟨rfl, rfl, rfl, rfl, rfl⟩, ⟨rfl, rfl, rfl, rfl, rfl⟩⟩

/-! ## `BehaviorsComponent::AddBehavior` -/

theorem getElem?_append_length (heap : Heap) (obj : IBehavior) :
    (heap ++ [obj])[heap.length]? = some obj := by
  rw [List.getElem?_append_right (le_refl _)]
  simp

theorem AddBehavior_eq (heap : Heap) (component : BehaviorsComponent) (unit : IBehavior) :
    BehaviorsComponent.AddBehavior heap component unit
      = (heap.length, heap ++ [unit],
          ⟨component.m_Behaviors.assign unit.m_Name heap.length⟩) := by
  unfold BehaviorsComponent.AddBehavior CreateReference
  simp only [getElem?_append_length]
  rfl

theorem lastCall_eq_none_iff (units : List IBehavior) (name : String) :
    lastCall units name = none ↔ ∀ u ∈ units, u.m_Name ≠ name := by
  induction units with
  | nil => simp [lastCall]
  | cons x rest ih =>
    unfold lastCall
    cases hl : lastCall rest name with
    | some i =>
      have hne : ¬ ∀ u ∈ rest, u.m_Name ≠ name := fun hall => by
        rw [ih.mpr hall] at hl
        cases hl
      simp only [reduceCtorEq, false_iff]
      intro hall
      exact hne (fun u hu => hall u (List.mem_cons_of_mem _ hu))
    | none =>
      have hrest := ih.mp hl
      by_cases hx : x.m_Name = name
      · simp only [hx, if_true, reduceCtorEq, false_iff]
        intro hall
        exact hall x (List.mem_cons_self _ _) hx
      · simp only [hx, if_false, true_iff]
        intro u hu
        rcases List.mem_cons.mp hu with h | h
        · rw [h]; exact hx
        · exact hrest u h

theorem lastCall_some (units : List IBehavior) (name : String) (i : Nat)
    (h : lastCall units name = some i) :
    ∃ u, units[i]? = some u ∧ u.m_Name = name := by
  induction units generalizing i with
  | nil => simp [lastCall] at h
  | cons x rest ih =>
    unfold lastCall at h
    cases hl : lastCall rest name with
    | some j =>
      rw [hl] at h
      simp only [Option.some.injEq] at h
      subst h
      obtain ⟨u, hu, hn⟩ := ih j hl
      exact ⟨u, by simpa using hu, hn⟩
    | none =>
      rw [hl] at h
      by_cases hx : x.m_Name = name
      · simp only [hx, if_true, Option.some.injEq] at h
        subst h
        exact ⟨x, by simp, hx⟩
      · simp [hx] at h

theorem lastCall_of_last (units : List IBehavior) (i : Nat) (u : IBehavior)
    (hi : units[i]? = some u)
    (hlast : ∀ j v, i < j → units[j]? = some v → v.m_Name ≠ u.m_Name) :
    lastCall units u.m_Name = some i := by
  induction units generalizing i with
  | nil => simp at hi
  | cons x rest ih =>
    unfold lastCall
    cases i with
    | zero =>
      simp only [List.getElem?_cons_zero, Option.some.injEq] at hi
      subst hi
      have hnone : lastCall rest x.m_Name = none := by
        rw [lastCall_eq_none_iff]
        intro v hv
        obtain ⟨j, hj⟩ := List.getElem?_of_mem hv
        exact hlast (j + 1) v (Nat.succ_pos j) (by simpa using hj)
      simp [hnone]
    | succ n =>
      have hn : rest[n]? = some u := by simpa using hi
      have := ih n hn (fun j v hj hv =>
        hlast (j + 1) v (Nat.succ_lt_succ hj) (by simpa using hv))
      simp [this]

theorem AddBehaviors_heap (heap : Heap) (component : BehaviorsComponent)
    (units : List IBehavior) :
    (BehaviorsComponent.AddBehaviors heap component units).1 = heap ++ units := by
  induction units generalizing heap component with
  | nil => simp [BehaviorsComponent.AddBehaviors]
  | cons x rest ih =>
    unfold BehaviorsComponent.AddBehaviors
    simp only [AddBehavior_eq, ih, List.append_assoc, List.singleton_append]

theorem AddBehaviors_find? (heap : Heap) (component : BehaviorsComponent)
    (units : List IBehavior) (name : String) :
    (BehaviorsComponent.AddBehaviors heap component units).2.m_Behaviors.find? name
      = match lastCall units name with
        | some i => some (heap.length + i)
        | none => component.m_Behaviors.find? name := by
  induction units generalizing heap component with
  | nil => simp [BehaviorsComponent.AddBehaviors, lastCall]
  | cons x rest ih =>
    unfold BehaviorsComponent.AddBehaviors lastCall
    simp only [AddBehavior_eq, ih]
    cases hl : lastCall rest name with
    | some i =>
      simp only [List.length_append, List.length_singleton, Option.some.injEq]
      rw [Nat.add_assoc, Nat.add_comm 1 i]
    | none =>
      by_cases hx : x.m_Name = name
      · subst hx
        simp [StdMap.find?_assign_self]
      · have hne : name ≠ x.m_Name := fun h => hx h.symm
        simp [hx, StdMap.find?_assign_ne _ _ _ _ hne]

theorem find?_empty (name : String) :
    (BehaviorsComponent.new).m_Behaviors.find? name = none := rfl

/-- C2: one `AddBehavior` call returns a handle to the new unit itself (a fresh
address, at which the unit lives, with every older object untouched), leaves
the registry mapping the reported name of the unit to that handle, leaves the
entry of every other name unchanged, and grows the registry by one exactly
when the name was absent. -/
theorem AddBehavior_single (heap : Heap) (component : BehaviorsComponent) (unit : IBehavior) :
    (BehaviorsComponent.AddBehavior heap component unit).2.1[
        (BehaviorsComponent.AddBehavior heap component unit).1]? = some unit
    ∧ heap[(BehaviorsComponent.AddBehavior heap component unit).1]? = none
    ∧ (∀ (a : Nat) (obj : IBehavior), heap[a]? = some obj →
        (BehaviorsComponent.AddBehavior heap component unit).2.1[a]? = some obj)
    ∧ (BehaviorsComponent.AddBehavior heap component unit).2.2.m_Behaviors.find?
        unit.GetName.1 = some (BehaviorsComponent.AddBehavior heap component unit).1
    ∧ (∀ other, other ≠ unit.GetName.1 →
        (BehaviorsComponent.AddBehavior heap component unit).2.2.m_Behaviors.find? other
          = component.m_Behaviors.find? other)
    ∧ (BehaviorsComponent.AddBehavior heap component unit).2.2.m_Behaviors.size
        = if component.m_Behaviors.contains unit.GetName.1
          then component.m_Behaviors.size else component.m_Behaviors.size + 1 := by
  rw [AddBehavior_eq]
  refine ⟨getElem?_append_length heap unit, ?_, ?_, ?_, ?_, ?_⟩
  · simp
  · intro a obj ha
    have hlt : a < heap.length := by
      rcases Nat.lt_or_ge a heap.length with h | h
      · exact h
      · rw [List.getElem?_eq_none h] at ha
        cases ha
    show (heap ++ [unit])[a]? = some obj
    rw [List.getElem?_append_left hlt]
    exact ha
  · exact StdMap.find?_assign_self _ _ _
  · intro other hne
    exact StdMap.find?_assign_ne _ _ _ _ hne
  · exact StdMap.size_assign _ _ _

/-- C1: after any sequence of `AddBehavior` calls on an empty registry, every
call has allocated its unit; the names in the registry are pairwise distinct
and are exactly the names used; there are as many entries as distinct names;
the entry of a name is the unit added by the last call with that name; and
every stored unit reports its key as its name. -/
theorem AddBehavior_sequence (heap : Heap) (units : List IBehavior) :
    (BehaviorsComponent.AddBehaviors heap BehaviorsComponent.new units).1 = heap ++ units
    ∧ (BehaviorsComponent.AddBehaviors heap BehaviorsComponent.new units).2.m_Behaviors.keys.Nodup
    ∧ (∀ name,
        name ∈ (BehaviorsComponent.AddBehaviors heap BehaviorsComponent.new units).2.m_Behaviors.keys
          ↔ ∃ u ∈ units, u.m_Name = name)
    ∧ (BehaviorsComponent.AddBehaviors heap BehaviorsComponent.new units).2.m_Behaviors.size
        = ((units.map (fun u => u.m_Name)).dedup).length
    ∧ (∀ i u, units[i]? = some u →
        (∀ j v, i < j → units[j]? = some v → v.m_Name ≠ u.m_Name) →
        (BehaviorsComponent.AddBehaviors heap BehaviorsComponent.new units).2.m_Behaviors.find?
            u.m_Name = some (heap.length + i)
        ∧ (BehaviorsComponent.AddBehaviors heap BehaviorsComponent.new units).1[
            heap.length + i]? = some u)
    ∧ (∀ name ref,
        (BehaviorsComponent.AddBehaviors heap BehaviorsComponent.new units).2.m_Behaviors.find?
            name = some ref →
        ∃ u, (BehaviorsComponent.AddBehaviors heap BehaviorsComponent.new units).1[ref]? = some u
          ∧ u.GetName.1 = name) := by
  have hkeys : ∀ name,
      name ∈ (BehaviorsComponent.AddBehaviors heap BehaviorsComponent.new units).2.m_Behaviors.keys
        ↔ ∃ u ∈ units, u.m_Name = name := by
    intro name
    rw [StdMap.mem_keys_iff, StdMap.contains, AddBehaviors_find?]
    cases hl : lastCall units name with
    | some i =>
      obtain ⟨u, hu, hn⟩ := lastCall_some units name i hl
      simp only [Option.isSome_some, true_iff]
      exact ⟨u, List.getElem?_mem hu, hn⟩
    | none =>
      have hall := (lastCall_eq_none_iff units name).mp hl
      simp only [find?_empty, Option.isSome_none, Bool.false_eq_true, false_iff]
      rintro ⟨u, hu, hn⟩
      exact hall u hu hn
  refine ⟨AddBehaviors_heap _ _ _, StdMap.keys_nodup _, hkeys, ?_, ?_, ?_⟩
  · have hperm : List.Perm
        (BehaviorsComponent.AddBehaviors heap BehaviorsComponent.new units).2.m_Behaviors.keys
        ((units.map (fun u => u.m_Name)).dedup) := by
      rw [List.perm_ext_iff_of_nodup (StdMap.keys_nodup _) (List.nodup_dedup _)]
      intro name
      rw [hkeys name, List.mem_dedup, List.mem_map]
    have := hperm.length_eq
    simpa [StdMap.size, StdMap.keys] using this
  · intro i u hi hlast
    have hl := lastCall_of_last units i u hi hlast
    constructor
    · rw [AddBehaviors_find?, hl]
    · rw [AddBehaviors_heap, List.getElem?_append_right (Nat.le_add_right _ _)]
      simpa using hi
  · intro name ref hfind
    rw [AddBehaviors_find?] at hfind
    cases hl : lastCall units name with
    | some i =>
      rw [hl] at hfind
      simp only [Option.some.injEq] at hfind
      subst hfind
      obtain ⟨u, hu, hn⟩ := lastCall_some units name i hl
      refine ⟨u, ?_, hn⟩
      rw [AddBehaviors_heap, List.getElem?_append_right (Nat.le_add_right _ _)]
      simpa using hu
    | none =>
      rw [hl] at hfind
      simp [find?_empty] at hfind

/-- Witness of C2: the registry holds "A" at address 0; adding a second unit
named "A" returns address 1, maps "A" to it and keeps the size at one. -/
theorem AddBehavior_single_witness :
    (BehaviorsComponent.AddBehavior [IBehavior.ofNative "A" ⟨7, 0⟩]
        ⟨StdMap.empty.assign "A" 0⟩ (IBehavior.ofFile "A" ⟨7, 0⟩ "a.lua")).1 = 1
    ∧ (BehaviorsComponent.AddBehavior [IBehavior.ofNative "A" ⟨7, 0⟩]
        ⟨StdMap.empty.assign "A" 0⟩ (IBehavior.ofFile "A" ⟨7, 0⟩ "a.lua")).2.2.m_Behaviors.find?
          "A" = some 1
    ∧ (BehaviorsComponent.AddBehavior [IBehavior.ofNative "A" ⟨7, 0⟩]
        ⟨StdMap.empty.assign "A" 0⟩ (IBehavior.ofFile "A" ⟨7, 0⟩ "a.lua")).2.2.m_Behaviors.size
          = 1 :=
  ⟨rfl,
    (AddBehavior_single [IBehavior.ofNative "A" ⟨7, 0⟩] ⟨StdMap.empty.assign "A" 0⟩
      (IBehavior.ofFile "A" ⟨7, 0⟩ "a.lua")).2.2.2.1,
    (AddBehavior_single [IBehavior.ofNative "A" ⟨7, 0⟩] ⟨StdMap.empty.assign "A" 0⟩
      (IBehavior.ofFile "A" ⟨7, 0⟩ "a.lua")).2.2.2.2.2⟩

/-- Witness of C1: three calls with the names "B", "A", "B" leave two entries,
"A" for the second unit and "B" for the third. -/
theorem AddBehavior_sequence_witness :
    (BehaviorsComponent.AddBehaviors [] BehaviorsComponent.new
        [IBehavior.ofNative "B" ⟨7, 0⟩, IBehavior.ofFile "A" ⟨7, 0⟩ "a.lua",
          IBehavior.ofFile "B" ⟨7, 0⟩ "b.lua"]).2.m_Behaviors.entries = [("A", 1), ("B", 2)]
    ∧ (BehaviorsComponent.AddBehaviors [] BehaviorsComponent.new
        [IBehavior.ofNative "B" ⟨7, 0⟩, IBehavior.ofFile "A" ⟨7, 0⟩ "a.lua",
          IBehavior.ofFile "B" ⟨7, 0⟩ "b.lua"]).2.m_Behaviors.find? "B" = some 2
    ∧ (BehaviorsComponent.AddBehaviors [] BehaviorsComponent.new
        [IBehavior.ofNative "B" ⟨7, 0⟩, IBehavior.ofFile "A" ⟨7, 0⟩ "a.lua",
          IBehavior.ofFile "B" ⟨7, 0⟩ "b.lua"]).1[2]?
          = some (IBehavior.ofFile "B" ⟨7, 0⟩ "b.lua") := by
  have h := (AddBehavior_sequence []
    [IBehavior.ofNative "B" ⟨7, 0⟩, IBehavior.ofFile "A" ⟨7, 0⟩ "a.lua",
      IBehavior.ofFile "B" ⟨7, 0⟩ "b.lua"]).2.2.2.2.1 2
    (IBehavior.ofFile "B" ⟨7, 0⟩ "b.lua") rfl (by
      intro j v hj hv
      rw [List.getElem?_eq_none (by simpa using hj)] at hv
      cases hv)
  exact ⟨rfl, h.1, h.2⟩

/-! ## Removal by name -/

/-- C7: removal by name from the behavior registry (`m_Behaviors.erase(name)`)
always returns a registry; removing an absent name returns the registry
unchanged; removing twice equals removing once; afterwards the name is absent,
every other name keeps its entry, and the size drops by one exactly when the
name was present. -/
theorem erase_by_name_idempotent (component : BehaviorsComponent) (name : String) :
    (component.m_Behaviors.contains name = false →
        component.m_Behaviors.erase name = component.m_Behaviors)
    ∧ (component.m_Behaviors.erase name).erase name = component.m_Behaviors.erase name
    ∧ (component.m_Behaviors.erase name).find? name = none
    ∧ (∀ other, other ≠ name →
        (component.m_Behaviors.erase name).find? other = component.m_Behaviors.find? other)
    ∧ (component.m_Behaviors.erase name).size
        = if component.m_Behaviors.contains name then component.m_Behaviors.size - 1
          else component.m_Behaviors.size := by
  refine ⟨?_, ?_, StdMap.find?_erase_self _ _, ?_, StdMap.size_erase _ _⟩
  · intro habsent
    apply StdMap.erase_of_find?_none
    unfold StdMap.contains at habsent
    cases hf : component.m_Behaviors.find? name with
    | none => rfl
    | some v => rw [hf] at habsent; cases habsent
  · exact StdMap.erase_of_find?_none _ _ (StdMap.find?_erase_self _ _)
  · intro other hne
    exact StdMap.find?_erase_ne _ _ _ hne

/-- Witness of C7: on the registry with "A" and "B", removing the absent "Z"
changes nothing, and removing "B" twice leaves "A" alone both times. -/
theorem erase_by_name_idempotent_witness :
    (⟨(StdMap.empty.assign "A" 0).assign "B" 1⟩ : BehaviorsComponent).m_Behaviors.contains "Z"
        = false
    ∧ ((StdMap.empty.assign "A" 0).assign "B" 1 : StdMap String Reference).erase "Z"
        = (StdMap.empty.assign "A" 0).assign "B" 1
    ∧ ((((StdMap.empty.assign "A" 0).assign "B" 1 : StdMap String Reference).erase "B").erase
        "B").entries = [("A", 0)] :=
  ⟨rfl,
    (erase_by_name_idempotent ⟨(StdMap.empty.assign "A" 0).assign "B" 1⟩ "Z").1 rfl,
    (congrArg StdMap.entries
      (erase_by_name_idempotent ⟨(StdMap.empty.assign "A" 0).assign "B" 1⟩ "B").2.1).trans rfl⟩

/-! ## Module loaders -/

/-- C3: for a name without a registered loader, `RegisterModule` throws the
runtime error whose text ends in the module name, invokes no loader, and
leaves the script state and both maps as they were; and it throws for such
names only. -/
theorem RegisterModule_unregistered (g : Glue) (name : String) (state : lua_State) :
    (g.s_ModuleLoader.contains name = false →
        (ScriptGlue.RegisterModule g name state).thrown
            = some (.runtime_error ("Module with name do not exists " ++ name))
        ∧ (ScriptGlue.RegisterModule g name state).invoked = []
        ∧ (ScriptGlue.RegisterModule g name state).state = state
        ∧ (ScriptGlue.RegisterModule g name state).glue = g)
    ∧ ((ScriptGlue.RegisterModule g name state).thrown ≠ none
        ↔ g.s_ModuleLoader.contains name = false) := by
  unfold ScriptGlue.RegisterModule StdMap.contains
  cases hf : g.s_ModuleLoader.find? name with
  | none => simp
  | some fn => simp

/-- Witness of C3: after `GenerateModules`, "math.def.lua" has no loader and
requesting it throws, naming the module. -/
theorem RegisterModule_unregistered_witness :
    (ScriptGlue.GenerateModules ScriptGlue.initial).s_ModuleLoader.contains "math.def.lua"
        = false
    ∧ (ScriptGlue.RegisterModule (ScriptGlue.GenerateModules ScriptGlue.initial)
        "math.def.lua" ⟨StdMap.empty⟩).thrown
        = some (.runtime_error "Module with name do not exists math.def.lua")
    ∧ (ScriptGlue.RegisterModule (ScriptGlue.GenerateModules ScriptGlue.initial)
        "math.def.lua" ⟨StdMap.empty⟩).invoked = [] :=
  ⟨rfl,
    ((RegisterModule_unregistered (ScriptGlue.GenerateModules ScriptGlue.initial)
      "math.def.lua" ⟨StdMap.empty⟩).1 rfl).1.trans (by decide),
    ((RegisterModule_unregistered (ScriptGlue.GenerateModules ScriptGlue.initial)
      "math.def.lua" ⟨StdMap.empty⟩).1 rfl).2.1⟩

/-- C4: after `RegisterModuleLoader(name, fn)`, `RegisterModule(name, state)`
throws nothing and invokes exactly `fn`, once, on the given state; a later
registration under the same name wins; loaders under other names and the
getter map are as before; and after `GenerateModules` both "wiesel.def.lua"
and "input.def.lua" load, the latter binding the three input functions. -/
theorem RegisterModule_registered (g : Glue) (name : String) (fn fn2 : LuaModuleLoaderFn)
    (state : lua_State) :
    ((ScriptGlue.RegisterModule (ScriptGlue.RegisterModuleLoader g name fn) name state).thrown
        = none
      ∧ (ScriptGlue.RegisterModule (ScriptGlue.RegisterModuleLoader g name fn) name state).invoked
        = [fn]
      ∧ (ScriptGlue.RegisterModule (ScriptGlue.RegisterModuleLoader g name fn) name state).state
        = fn state
      ∧ (ScriptGlue.RegisterModule (ScriptGlue.RegisterModuleLoader g name fn) name state).glue
        = ScriptGlue.RegisterModuleLoader g name fn)
    ∧ (ScriptGlue.RegisterModule
          (ScriptGlue.RegisterModuleLoader (ScriptGlue.RegisterModuleLoader g name fn) name fn2)
          name state).invoked = [fn2]
    ∧ (∀ other, other ≠ name →
        (ScriptGlue.RegisterModuleLoader g name fn).s_ModuleLoader.find? other
          = g.s_ModuleLoader.find? other)
    ∧ (ScriptGlue.RegisterModuleLoader g name fn).s_GetterFn = g.s_GetterFn
    ∧ ((ScriptGlue.RegisterModule (ScriptGlue.GenerateModules g) "wiesel.def.lua" state).thrown
        = none
      ∧ (ScriptGlue.RegisterModule (ScriptGlue.GenerateModules g) "wiesel.def.lua" state).invoked
        = [ScriptGlue.wieselModule]
      ∧ (ScriptGlue.RegisterModule (ScriptGlue.GenerateModules g) "wiesel.def.lua" state).state
        = state)
    ∧ ((ScriptGlue.RegisterModule (ScriptGlue.GenerateModules g) "input.def.lua" state).thrown
        = none
      ∧ (ScriptGlue.RegisterModule (ScriptGlue.GenerateModules g) "input.def.lua" state).invoked
        = [ScriptGlue.inputModule]
      ∧ ∃ members,
          luabridge.getGlobal
            (ScriptGlue.RegisterModule (ScriptGlue.GenerateModules g) "input.def.lua" state).state
            "input" = .table members
          ∧ StdMap.findRaw members "GetKey" = some "InputManager::GetKey"
          ∧ StdMap.findRaw members "GetAxis" = some "InputManager::GetAxis"
          ∧ StdMap.findRaw members "IsPressed" = some "InputManager::IsPressed") := by
  have hreg : ∀ (g0 : Glue) (n : String) (f : LuaModuleLoaderFn) (st : lua_State),
      ScriptGlue.RegisterModule (ScriptGlue.RegisterModuleLoader g0 n f) n st
        = ⟨none, f st, ScriptGlue.RegisterModuleLoader g0 n f, [f]⟩ := by
    intro g0 n f st
    unfold ScriptGlue.RegisterModule
    have : (ScriptGlue.RegisterModuleLoader g0 n f).s_ModuleLoader.find? n = some f :=
      StdMap.find?_assign_self _ _ _
    rw [this]
  have hwiesel : (ScriptGlue.GenerateModules g).s_ModuleLoader.find? "wiesel.def.lua"
      = some ScriptGlue.wieselModule := by
    unfold ScriptGlue.GenerateModules
    have h1 : (ScriptGlue.RegisterModuleLoader
        (ScriptGlue.RegisterModuleLoader g "wiesel.def.lua" ScriptGlue.wieselModule)
        "input.def.lua" ScriptGlue.inputModule).s_ModuleLoader.find? "wiesel.def.lua"
        = (ScriptGlue.RegisterModuleLoader g "wiesel.def.lua"
            ScriptGlue.wieselModule).s_ModuleLoader.find? "wiesel.def.lua" :=
      StdMap.find?_assign_ne _ _ _ _ (by decide)
    rw [h1]
    exact StdMap.find?_assign_self _ _ _
  refine ⟨?_, ?_, ?_, rfl, ?_, ?_⟩
  · rw [hreg]
    exact ⟨rfl, rfl, rfl, rfl⟩
  · rw [hreg]
  · intro other hne
    exact StdMap.find?_assign_ne _ _ _ _ hne
  · unfold ScriptGlue.RegisterModule
    rw [hwiesel]
    exact ⟨rfl, rfl, rfl⟩
  · have hin : ScriptGlue.RegisterModule (ScriptGlue.GenerateModules g) "input.def.lua" state
        = ⟨none, ScriptGlue.inputModule state, ScriptGlue.GenerateModules g,
            [ScriptGlue.inputModule]⟩ := hreg _ _ _ _
    rw [hin]
    refine ⟨rfl, rfl, ?_⟩
    refine ⟨luabridge.addFunction (luabridge.addFunction (luabridge.addFunction
      (luabridge.beginNamespace state "input") "GetKey" "InputManager::GetKey")
      "GetAxis" "InputManager::GetAxis") "IsPressed" "InputManager::IsPressed", ?_, ?_, ?_, ?_⟩
    · show luabridge.getGlobal (ScriptGlue.inputModule state) "input" = .table _
      unfold ScriptGlue.inputModule luabridge.endNamespace luabridge.getGlobal
      simp only [StdMap.find?_assign_self]
    · unfold luabridge.addFunction
      rw [StdMap.findRaw_assignRaw_ne _ _ _ _ (by decide),
        StdMap.findRaw_assignRaw_ne _ _ _ _ (by decide)]
      exact StdMap.findRaw_assignRaw_self _ _ _
    · unfold luabridge.addFunction
      rw [StdMap.findRaw_assignRaw_ne _ _ _ _ (by decide)]
      exact StdMap.findRaw_assignRaw_self _ _ _
    · unfold luabridge.addFunction
      exact StdMap.findRaw_assignRaw_self _ _ _

/-! ## Component getters -/

theorem subscript_present {K V : Type} [LinearOrder K] (m : StdMap K V) (k : K) (v dflt : V)
    (h : m.find? k = some v) : m.subscript k dflt = (v, m) := by
  unfold StdMap.subscript
  rw [h]

theorem subscript_absent {K V : Type} [LinearOrder K] (m : StdMap K V) (k : K) (dflt : V)
    (h : m.find? k = none) : m.subscript k dflt = (dflt, m.assign k dflt) := by
  unfold StdMap.subscript
  rw [h]

/-- Lookups of a registered name are read-only: when `name` has a getter,
`GetComponentGetter` and `StaticGetComponent` leave both maps as they were. -/
theorem getter_lookup_registered (g : Glue) (name : String) (fn : LuaComponentGetFn)
    (w : World) (state : lua_State) (behavior : IBehavior)
    (h : g.s_GetterFn.find? name = some fn) :
    (ScriptGlue.GetComponentGetter g name).1 = fn
    ∧ (ScriptGlue.GetComponentGetter g name).2 = g
    ∧ (ScriptGlue.StaticGetComponent g name w state behavior).glue = g := by
  unfold ScriptGlue.GetComponentGetter ScriptGlue.StaticGetComponent
  rw [subscript_present _ _ _ _ h]
  refine ⟨rfl, rfl, ?_⟩
  cases fn <;> rfl

theorem getter_lookup_registered_witness :
    (ScriptGlue.GenerateComponents ScriptGlue.initial).s_GetterFn.find? "TransformComponent"
        = some (some ScriptGlue.getterLambda)
    ∧ (ScriptGlue.GetComponentGetter (ScriptGlue.GenerateComponents ScriptGlue.initial)
        "TransformComponent").2 = ScriptGlue.GenerateComponents ScriptGlue.initial :=
  ⟨rfl, (getter_lookup_registered (ScriptGlue.GenerateComponents ScriptGlue.initial)
    "TransformComponent" (some ScriptGlue.getterLambda) ⟨[], StdMap.empty⟩ ⟨StdMap.empty⟩
    (IBehavior.ofNative "Spin" ⟨0, 0⟩) rfl).2.1⟩

/-- C8, at a name that has no getter: after `GenerateComponents` the getter map
holds the one key "TransformComponent"; `GetComponentGetter("ModelComponent")`
returns the empty callable and leaves the map with the two keys
"ModelComponent" and "TransformComponent", the new one mapped to the empty
callable; `StaticGetComponent("ModelComponent", ...)` leaves the same two keys
and throws on calling the empty callable.  Neither map afterwards equals the
map before. -/
theorem getter_lookup_unregistered_inserts :
    (ScriptGlue.GenerateComponents ScriptGlue.initial).s_GetterFn.keys = ["TransformComponent"]
    ∧ (ScriptGlue.GetComponentGetter (ScriptGlue.GenerateComponents ScriptGlue.initial)
        "ModelComponent").1.isNone = true
    ∧ (ScriptGlue.GetComponentGetter (ScriptGlue.GenerateComponents ScriptGlue.initial)
        "ModelComponent").2.s_GetterFn.keys = ["ModelComponent", "TransformComponent"]
    ∧ ((ScriptGlue.GetComponentGetter (ScriptGlue.GenerateComponents ScriptGlue.initial)
        "ModelComponent").2.s_GetterFn.find? "ModelComponent").map Option.isNone = some true
    ∧ (ScriptGlue.StaticGetComponent (ScriptGlue.GenerateComponents ScriptGlue.initial)
        "ModelComponent" ⟨[], StdMap.empty⟩ ⟨StdMap.empty⟩
        (IBehavior.ofFile "Move" ⟨0, 0⟩ "move.lua")).glue.s_GetterFn.keys
        = ["ModelComponent", "TransformComponent"]
    ∧ (ScriptGlue.StaticGetComponent (ScriptGlue.GenerateComponents ScriptGlue.initial)
        "ModelComponent" ⟨[], StdMap.empty⟩ ⟨StdMap.empty⟩
        (IBehavior.ofFile "Move" ⟨0, 0⟩ "move.lua")).thrown = some .bad_function_call
    ∧ (ScriptGlue.GetComponentGetter (ScriptGlue.GenerateComponents ScriptGlue.initial)
        "ModelComponent").2.s_GetterFn
        ≠ (ScriptGlue.GenerateComponents ScriptGlue.initial).s_GetterFn
    ∧ (ScriptGlue.StaticGetComponent (ScriptGlue.GenerateComponents ScriptGlue.initial)
        "ModelComponent" ⟨[], StdMap.empty⟩ ⟨StdMap.empty⟩
        (IBehavior.ofFile "Move" ⟨0, 0⟩ "move.lua")).glue.s_GetterFn
        ≠ (ScriptGlue.GenerateComponents ScriptGlue.initial).s_GetterFn := by
  refine ⟨rfl, rfl, rfl, rfl, rfl, rfl, ?_, ?_⟩
  · intro h
    have hk := congrArg StdMap.keys h
    revert hk
    decide
  · intro h
    have hk := congrArg StdMap.keys h
    revert hk
    decide

theorem GetTransformComponent_storeTransform (w : World) (entity : Entity)
    (t t2 : TransformComponent) (h : entity.GetTransformComponent w = some t) :
    entity.GetTransformComponent (w.storeTransform entity.m_EntityHandle t2) = some t2 := by
  unfold Entity.GetTransformComponent at h
  unfold Entity.GetTransformComponent World.storeTransform
  cases hf : w.registry.find? entity.m_EntityHandle with
  | none => rw [hf] at h; cases h
  | some c => simp only [StdMap.find?_assign_self]

/-- C9: for every name registered through `AddGetter` (after
`GenerateComponents`: "TransformComponent") and every entity that has the
component, the lookup finds the registered getter and changes no map; calling
it throws nothing and returns, as the global "__currentcomponent", a proxy
that refers to the slot of that entity; the proxy reads the live component,
also after a later native write; and a write through the proxy is what a
native `GetComponent` on the entity reads next. -/
theorem getter_returns_live_proxy (g : Glue) (name : String) (w : World) (state : lua_State)
    (behavior : IBehavior) (t : TransformComponent)
    (hhas : behavior.m_Entity.GetTransformComponent w = some t) :
    (ScriptGlue.GetComponentGetter (ScriptGlue.AddGetter g name) name).1
        = some ScriptGlue.getterLambda
    ∧ (ScriptGlue.StaticGetComponent (ScriptGlue.AddGetter g name) name w state behavior).glue
        = ScriptGlue.AddGetter g name
    ∧ (ScriptGlue.StaticGetComponent (ScriptGlue.AddGetter g name) name w state behavior).thrown
        = none
    ∧ (ScriptGlue.StaticGetComponent (ScriptGlue.AddGetter g name) name w state behavior).ref
        = .userdata ⟨behavior.m_Entity.m_EntityHandle⟩
    ∧ luabridge.getGlobal
        (ScriptGlue.StaticGetComponent (ScriptGlue.AddGetter g name) name w state behavior).state
        "__currentcomponent" = .userdata ⟨behavior.m_Entity.m_EntityHandle⟩
    ∧ (ScriptGlue.StaticGetComponent (ScriptGlue.GenerateComponents g) "TransformComponent"
        w state behavior).ref = .userdata ⟨behavior.m_Entity.m_EntityHandle⟩
    ∧ (⟨behavior.m_Entity.m_EntityHandle⟩ : ScriptTransformComponent).read w = some t
    ∧ (∀ t2, (⟨behavior.m_Entity.m_EntityHandle⟩ : ScriptTransformComponent).read
        (w.storeTransform behavior.m_Entity.m_EntityHandle t2) = some t2)
    ∧ (∀ f, behavior.m_Entity.GetTransformComponent
        ((⟨behavior.m_Entity.m_EntityHandle⟩ : ScriptTransformComponent).write f w)
          = some (f t))
    ∧ (∀ x y z, behavior.m_Entity.GetTransformComponent
        ((⟨behavior.m_Entity.m_EntityHandle⟩ : ScriptTransformComponent).SetPosition x y z w)
          = some { t with Position := ⟨x, y, z⟩ }) := by
  have hfind : ∀ n, (ScriptGlue.AddGetter g n).s_GetterFn.find? n
      = some (some ScriptGlue.getterLambda) := fun n => StdMap.find?_assign_self _ _ _
  have hread : (⟨behavior.m_Entity.m_EntityHandle⟩ : ScriptTransformComponent).read w
      = some t := hhas
  have hcall : ∀ n, ScriptGlue.StaticGetComponent (ScriptGlue.AddGetter g n) n w state behavior
      = ⟨none, .userdata ⟨behavior.m_Entity.m_EntityHandle⟩,
          luabridge.setGlobal state (.userdata ⟨behavior.m_Entity.m_EntityHandle⟩)
            "__currentcomponent",
          ScriptGlue.AddGetter g n⟩ := by
    intro n
    unfold ScriptGlue.StaticGetComponent
    rw [subscript_present _ _ _ _ (hfind n)]
    simp only [ScriptGlue.getterLambda, IBehavior.GetEntity, hhas, luabridge.getGlobal,
      luabridge.setGlobal, StdMap.find?_assign_self]
  have hwrite : ∀ f, behavior.m_Entity.GetTransformComponent
      ((⟨behavior.m_Entity.m_EntityHandle⟩ : ScriptTransformComponent).write f w)
        = some (f t) := by
    intro f
    unfold ScriptTransformComponent.write
    rw [hread]
    exact GetTransformComponent_storeTransform w behavior.m_Entity t (f t) hhas
  refine ⟨?_, ?_, ?_, ?_, ?_, ?_, hread, ?_, hwrite, ?_⟩
  · unfold ScriptGlue.GetComponentGetter
    rw [subscript_present _ _ _ _ (hfind name)]
  · rw [hcall]
  · rw [hcall]
  · rw [hcall]
  · rw [hcall]
    simp only [luabridge.getGlobal, luabridge.setGlobal, StdMap.find?_assign_self]
  · unfold ScriptGlue.GenerateComponents
    rw [hcall]
  · intro t2
    exact GetTransformComponent_storeTransform w behavior.m_Entity t t2 hhas
  · intro x y z
    exact hwrite _

/-- Witness of C9: entity 7 with a transform at the origin; a script moves it
to (1, 2, 3) through the proxy and a native read sees the new position. -/
theorem getter_returns_live_proxy_witness :
    (⟨7, 0⟩ : Entity).GetTransformComponent
        ⟨[], StdMap.empty.assign 7 ⟨some ⟨⟨0, 0, 0⟩, ⟨0, 0, 0⟩, ⟨1, 1, 1⟩, false⟩, none, none⟩⟩
      = some ⟨⟨0, 0, 0⟩, ⟨0, 0, 0⟩, ⟨1, 1, 1⟩, false⟩
    ∧ (⟨7, 0⟩ : Entity).GetTransformComponent
        ((⟨7⟩ : ScriptTransformComponent).SetPosition 1 2 3
          ⟨[], StdMap.empty.assign 7
            ⟨some ⟨⟨0, 0, 0⟩, ⟨0, 0, 0⟩, ⟨1, 1, 1⟩, false⟩, none, none⟩⟩)
      = some ⟨⟨1, 2, 3⟩, ⟨0, 0, 0⟩, ⟨1, 1, 1⟩, false⟩ :=
  ⟨rfl, (getter_returns_live_proxy (ScriptGlue.GenerateComponents ScriptGlue.initial)
    "TransformComponent"
    ⟨[], StdMap.empty.assign 7 ⟨some ⟨⟨0, 0, 0⟩, ⟨0, 0, 0⟩, ⟨1, 1, 1⟩, false⟩, none, none⟩⟩
    ⟨StdMap.empty⟩ (IBehavior.ofFile "Move" ⟨7, 0⟩ "move.lua")
    ⟨⟨0, 0, 0⟩, ⟨0, 0, 0⟩, ⟨1, 1, 1⟩, false⟩ rfl).2.2.2.2.2.2.2.2.2 1 2 3⟩

/-! ## Deferred closures on a stale target -/

theorem HasComponent_of_destroyed (T : ComponentType) (entity : Entity) (w : World)
    (h : w.registry.find? entity.m_EntityHandle = none) : entity.HasComponent T w = false := by
  unfold Entity.HasComponent
  rw [h]

/-- C6: when the target entity no longer has the expected component as the
deferred closure runs, the closure only asks `HasComponent`: it does not
fault, performs no `GetComponent`, no `Engine::LoadModel`, no erase or insert
on `m_Behaviors`, allocates nothing, and leaves heap and component store as
they were.  This covers an entity that was destroyed altogether. -/
theorem stale_closure_skips
    (LoadModel : Nat → TransformComponent → ModelComponent → String →
      TransformComponent × ModelComponent)
    (luaName : Entity → String → String)
    (aiScene entityHandle engineScene : Nat) (name file : String) (w : World) :
    ((⟨entityHandle, engineScene⟩ : Entity).HasComponent .ModelComponent w = false →
        (modelLoadTask LoadModel aiScene entityHandle engineScene file w).faulted = false
        ∧ (modelLoadTask LoadModel aiScene entityHandle engineScene file w).world = w
        ∧ (modelLoadTask LoadModel aiScene entityHandle engineScene file w).trace
            = [.HasComponent .ModelComponent entityHandle])
    ∧ ((⟨entityHandle, engineScene⟩ : Entity).HasComponent .BehaviorsComponent w = false →
        (scriptReplaceTask luaName engineScene entityHandle name file w).faulted = false
        ∧ (scriptReplaceTask luaName engineScene entityHandle name file w).world = w
        ∧ (scriptReplaceTask luaName engineScene entityHandle name file w).trace
            = [.HasComponent .BehaviorsComponent entityHandle])
    ∧ (w.registry.find? entityHandle = none →
        modelLoadTask LoadModel aiScene entityHandle engineScene file w
            = ⟨false, w, [.HasComponent .ModelComponent entityHandle]⟩
        ∧ scriptReplaceTask luaName engineScene entityHandle name file w
            = ⟨false, w, [.HasComponent .BehaviorsComponent entityHandle]⟩) := by
  have hmodel : (⟨entityHandle, engineScene⟩ : Entity).HasComponent .ModelComponent w = false →
      modelLoadTask LoadModel aiScene entityHandle engineScene file w
        = ⟨false, w, [.HasComponent .ModelComponent entityHandle]⟩ := by
    intro h
    unfold modelLoadTask
    simp only [h, Bool.false_eq_true, if_false]
  have hscript : (⟨entityHandle, engineScene⟩ : Entity).HasComponent .BehaviorsComponent w
      = false →
      scriptReplaceTask luaName engineScene entityHandle name file w
        = ⟨false, w, [.HasComponent .BehaviorsComponent entityHandle]⟩ := by
    intro h
    unfold scriptReplaceTask
    simp only [h, Bool.false_eq_true, if_false]
  refine ⟨?_, ?_, ?_⟩
  · intro h
    rw [hmodel h]
    exact ⟨rfl, rfl, rfl⟩
  · intro h
    rw [hscript h]
    exact ⟨rfl, rfl, rfl⟩
  · intro h
    exact ⟨hmodel (HasComponent_of_destroyed _ ⟨entityHandle, engineScene⟩ w h),
      hscript (HasComponent_of_destroyed _ ⟨entityHandle, engineScene⟩ w h)⟩

/-- Witness of C6: entity 7 kept its transform but lost its model and its
behaviors; entity 9 was destroyed.  Both closures skip on either. -/
theorem stale_closure_skips_witness :
    (⟨7, 0⟩ : Entity).HasComponent .ModelComponent
        ⟨[], StdMap.empty.assign 7 ⟨some ⟨⟨0, 0, 0⟩, ⟨0, 0, 0⟩, ⟨1, 1, 1⟩, false⟩, none, none⟩⟩
      = false
    ∧ (modelLoadTask (fun _ t m file => (t, { m with ModelPath := file })) 1 7 0 "ship.obj"
        ⟨[], StdMap.empty.assign 7
          ⟨some ⟨⟨0, 0, 0⟩, ⟨0, 0, 0⟩, ⟨1, 1, 1⟩, false⟩, none, none⟩⟩).trace
      = [.HasComponent .ModelComponent 7]
    ∧ (scriptReplaceTask (fun _ file => file) 0 9 "Move" "move.lua"
        ⟨[], StdMap.empty.assign 7
          ⟨some ⟨⟨0, 0, 0⟩, ⟨0, 0, 0⟩, ⟨1, 1, 1⟩, false⟩, none, none⟩⟩).faulted = false :=
  ⟨rfl,
    ((stale_closure_skips (fun _ t m file => (t, { m with ModelPath := file }))
      (fun _ file => file) 1 7 0 "Move" "ship.obj"
      ⟨[], StdMap.empty.assign 7
        ⟨some ⟨⟨0, 0, 0⟩, ⟨0, 0, 0⟩, ⟨1, 1, 1⟩, false⟩, none, none⟩⟩).1 rfl).2.2,
    congrArg Ran.faulted
      ((stale_closure_skips (fun _ t m file => (t, { m with ModelPath := file }))
        (fun _ file => file) 1 9 0 "Move" "move.lua"
        ⟨[], StdMap.empty.assign 7
          ⟨some ⟨⟨0, 0, 0⟩, ⟨0, 0, 0⟩, ⟨1, 1, 1⟩, false⟩, none, none⟩⟩).2.2 rfl).2⟩

/-! ## The Reload action -/

theorem callSetEnabled_append (heap : Heap) (obj : IBehavior) (enabled : Bool) :
    callSetEnabled (heap ++ [obj]) heap.length enabled = heap ++ [obj.SetEnabled enabled] := by
  unfold callSetEnabled
  rw [getElem?_append_length]
  simp

theorem callSetEnabled_length (heap : Heap) (ref : Reference) (enabled : Bool) :
    (callSetEnabled heap ref enabled).length = heap.length := by
  unfold callSetEnabled
  cases heap[ref]? <;> simp

theorem callSetEnabled_at (heap : Heap) (ref : Reference) (enabled : Bool) (u : IBehavior)
    (h : heap[ref]? = some u) :
    (callSetEnabled heap ref enabled)[ref]? = some (u.SetEnabled enabled) := by
  have hlt : ref < heap.length := by
    rcases Nat.lt_or_ge ref heap.length with h1 | h1
    · exact h1
    · rw [List.getElem?_eq_none h1] at h
      cases h
  unfold callSetEnabled
  rw [h]
  simp [List.getElem?_set, hlt]

theorem reloadBranch_eq (luaName : Entity → String → String) (heap : Heap)
    (behavior : Reference) (entity : Entity) (b : IBehavior) (hb : heap[behavior]? = some b)
    (visible : Bool) (component : BehaviorsComponent) (dialogs : List String) :
    reloadBranch luaName ⟨visible, heap, component, dialogs⟩ behavior entity
      = some ⟨visible,
          heap ++ [(LuaBehavior luaName entity b.m_File).SetEnabled b.m_Enabled],
          ⟨(component.m_Behaviors.erase b.m_Name).assign b.m_Name heap.length⟩,
          dialogs⟩ := by
  unfold reloadBranch CreateReference
  simp only [hb, callSetEnabled_append, IBehavior.GetName, IBehavior.GetFile,
    IBehavior.IsEnabled]

theorem render_closed_form (luaName : Entity → String → String) (ui : Frame) (s : Inspector)
    (behavior : Reference) (entity : Entity) (b : IBehavior)
    (hb : s.heap[behavior]? = some b) :
    RenderBehaviorComponentImGui luaName ui s behavior entity
      = if (ui.treeOpen && !b.m_InternalBehavior && ui.reloadClicked) = true then
          some (true,
            ⟨!ui.closeRequested && s.visible,
              (if (ui.treeOpen && ui.enabledToggled) = true
                then callSetEnabled s.heap behavior (!b.m_Enabled) else s.heap) ++
                [(LuaBehavior luaName entity b.m_File).SetEnabled
                  (if ui.enabledToggled then !b.m_Enabled else b.m_Enabled)],
              ⟨(s.component.m_Behaviors.erase b.m_Name).assign b.m_Name s.heap.length⟩,
              if (ui.treeOpen && !b.m_InternalBehavior && ui.browseClicked) = true
                then s.dialogs ++ [b.m_Name] else s.dialogs⟩)
        else if (!ui.closeRequested && s.visible) = false then
          some (true,
            ⟨true,
              if (ui.treeOpen && ui.enabledToggled) = true
                then callSetEnabled s.heap behavior (!b.m_Enabled) else s.heap,
              ⟨s.component.m_Behaviors.erase b.m_Name⟩,
              if (ui.treeOpen && !b.m_InternalBehavior && ui.browseClicked) = true
                then s.dialogs ++ [b.m_Name] else s.dialogs⟩)
        else
          some (false,
            ⟨true,
              if (ui.treeOpen && ui.enabledToggled) = true
                then callSetEnabled s.heap behavior (!b.m_Enabled) else s.heap,
              s.component,
              if (ui.treeOpen && !b.m_InternalBehavior && ui.browseClicked) = true
                then s.dialogs ++ [b.m_Name] else s.dialogs⟩) := by
  obtain ⟨treeOpen, closeRequested, enabledToggled, browseClicked, reloadClicked⟩ := ui
  obtain ⟨visible, heap, component, dialogs⟩ := s
  simp only at hb
  have hset := callSetEnabled_at heap behavior (!b.m_Enabled) b hb
  have hlen := callSetEnabled_length heap behavior (!b.m_Enabled)
  cases hint : b.m_InternalBehavior <;> cases treeOpen <;> cases closeRequested <;>
    cases enabledToggled <;> cases browseClicked <;> cases reloadClicked <;> cases visible <;>
    simp [RenderBehaviorComponentImGui, hb, hint, hset, hlen,
      IBehavior.IsEnabled, IBehavior.IsInternalBehavior, IBehavior.GetName,
      reloadBranch_eq luaName _ behavior entity _ hb,
      reloadBranch_eq luaName _ behavior entity _ hset, IBehavior.SetEnabled]

theorem render_outcome (luaName : Entity → String → String) (ui : Frame) (s : Inspector)
    (behavior : Reference) (entity : Entity) (b : IBehavior)
    (hb : s.heap[behavior]? = some b) :
    ∃ r s1, RenderBehaviorComponentImGui luaName ui s behavior entity = some (r, s1)
      ∧ r = ((ui.treeOpen && !b.m_InternalBehavior && ui.reloadClicked)
              || ui.closeRequested || !s.visible)
      ∧ (r = false → s1.component = s.component)
      ∧ s.heap.length ≤ s1.heap.length
      ∧ s1.heap = (if (ui.treeOpen && ui.enabledToggled) = true
            then callSetEnabled s.heap behavior (!b.m_Enabled) else s.heap)
          ++ (if (ui.treeOpen && !b.m_InternalBehavior && ui.reloadClicked) = true
            then [(LuaBehavior luaName entity b.m_File).SetEnabled
              (if ui.enabledToggled then !b.m_Enabled else b.m_Enabled)] else [])
      ∧ s1.dialogs = (if (ui.treeOpen && !b.m_InternalBehavior && ui.browseClicked) = true
            then s.dialogs ++ [b.m_Name] else s.dialogs)
      ∧ s1.component
          = (if (ui.treeOpen && !b.m_InternalBehavior && ui.reloadClicked) = true
              then ⟨(s.component.m_Behaviors.erase b.m_Name).assign b.m_Name s.heap.length⟩
            else if (!ui.closeRequested && s.visible) = false
              then ⟨s.component.m_Behaviors.erase b.m_Name⟩
            else s.component) := by
  have hlen : (if (ui.treeOpen && ui.enabledToggled) = true
      then callSetEnabled s.heap behavior (!b.m_Enabled) else s.heap).length
      = s.heap.length := by
    split
    · exact callSetEnabled_length _ _ _
    · rfl
  rw [render_closed_form luaName ui s behavior entity b hb]
  by_cases h1 : (ui.treeOpen && !b.m_InternalBehavior && ui.reloadClicked) = true
  · simp only [h1, if_true]
    refine ⟨_, _, rfl, by simp, by simp, ?_, rfl, rfl, rfl⟩
    simp only [List.length_append, hlen]
    exact Nat.le_add_right _ _
  · simp only [h1, if_false, Bool.false_eq_true]
    by_cases h2 : (!ui.closeRequested && s.visible) = false
    · simp only [h2, if_true]
      refine ⟨_, _, rfl, ?_, by simp, ?_, by simp, rfl, rfl⟩
      · revert h2
        cases ui.closeRequested <;> cases s.visible <;> simp
      · simp only [hlen]
        exact Nat.le_refl _
    · simp only [h2, if_false]
      refine ⟨_, _, rfl, ?_, fun _ => rfl, ?_, by simp, rfl, rfl⟩
      · revert h2
        cases ui.closeRequested <;> cases s.visible <;> simp
      · simp only [hlen]
        exact Nat.le_refl _

theorem renderEntries_outcome (luaName : Entity → String → String) (ui : String → Frame)
    (entity : Entity) (l : List (String × Reference)) (s : Inspector)
    (hvalid : ∀ e ∈ l, e.2 < s.heap.length) :
    ∃ s2 pre fin, renderEntries luaName ui entity l s = some (s2, pre ++ fin)
      ∧ (∀ v ∈ pre, v.returned = false ∧ v.after = s.component)
      ∧ (pre ++ fin).map Visit.name <+: l.map Prod.fst
      ∧ ((fin = [] ∧ pre.map Visit.name = l.map Prod.fst ∧ s2.component = s.component)
        ∨ (∃ v, fin = [v] ∧ v.returned = true ∧ s2.component = v.after)) := by
  induction l generalizing s with
  | nil =>
    exact ⟨s, [], [], rfl, by simp, by simp, Or.inl ⟨rfl, rfl, rfl⟩⟩
  | cons e rest ih =>
    have hlt : e.2 < s.heap.length := hvalid e (List.mem_cons_self _ _)
    have hb : s.heap[e.2]? = some (s.heap[e.2]) := List.getElem?_eq_getElem hlt
    obtain ⟨r, s1, hcall, _, hfalse, hmono, _, _, _⟩ :=
      render_outcome luaName (ui e.1) s e.2 entity _ hb
    unfold renderEntries
    rw [hcall]
    cases r with
    | true =>
      refine ⟨s1, [], [⟨e.1, true, s1.component⟩], rfl, by simp, ?_,
        Or.inr ⟨_, rfl, rfl, rfl⟩⟩
      simp only [List.nil_append, List.map_cons, List.map_nil]
      exact List.prefix_iff_eq_append.mpr (by simp)
    | false =>
      have hcomp : s1.component = s.component := hfalse rfl
      have hvalid1 : ∀ x ∈ rest, x.2 < s1.heap.length := fun x hx =>
        Nat.lt_of_lt_of_le (hvalid x (List.mem_cons_of_mem _ hx)) hmono
      obtain ⟨s2, pre, fin, hrest, hpre, hprefix, hfin⟩ := ih s1 hvalid1
      refine ⟨s2, ⟨e.1, false, s1.component⟩ :: pre, fin, ?_, ?_, ?_, ?_⟩
      · simp only [hrest, List.cons_append]
      · intro v hv
        rcases List.mem_cons.mp hv with h | h
        · rw [h]
          exact ⟨rfl, hcomp⟩
        · rw [← hcomp]
          exact hpre v h
      · simp only [List.cons_append, List.map_cons]
        exact (List.prefix_cons_inj e.1).mpr hprefix
      · rcases hfin with ⟨h1, h2, h3⟩ | ⟨v, h1, h2, h3⟩
        · exact Or.inl ⟨h1, by simp [h2], by rw [h3, hcomp]⟩
        · exact Or.inr ⟨v, h1, h2, h3⟩

/-- C11: an inspector pass over a registry whose handles are live always
completes, and its calls of the handler split into calls that returned false,
each leaving `m_Behaviors` equal to the registry the pass started on, followed
by at most one call that returned true, after which no further entry is
visited; the entries visited are an initial stretch of the registry in key
order, all of it when no call returned true.  For the handler itself: it
returns true exactly on the Reload path and on the close path; when it returns
false `m_Behaviors` is as before the call, so a call that changed the entries
returned true; the "..." button changes nothing but the list of dialogs
opened; and the callback of such a dialog only appends the replacing closure
to the queue of the main thread. -/
theorem pass_stops_on_mutation (luaName : Entity → String → String) (ui : String → Frame)
    (s : Inspector) (entity : Entity)
    (hvalid : ∀ e ∈ s.component.m_Behaviors.entries, e.2 < s.heap.length) :
    (∃ s2 pre fin, RenderComponentImGui luaName ui s entity = some (s2, pre ++ fin)
      ∧ (∀ v ∈ pre, v.returned = false ∧ v.after = s.component)
      ∧ (pre ++ fin).map Visit.name <+: s.component.m_Behaviors.keys
      ∧ ((fin = [] ∧ pre.map Visit.name = s.component.m_Behaviors.keys
            ∧ s2.component = s.component)
        ∨ (∃ v, fin = [v] ∧ v.returned = true ∧ s2.component = v.after)))
    ∧ (∀ (frame : Frame) (t : Inspector) (ref : Reference) (b : IBehavior),
        t.heap[ref]? = some b →
        ∃ r t1, RenderBehaviorComponentImGui luaName frame t ref entity = some (r, t1)
          ∧ r = ((frame.treeOpen && !b.IsInternalBehavior.1 && frame.reloadClicked)
                  || frame.closeRequested || !t.visible)
          ∧ (r = false → t1.component = t.component)
          ∧ (t1.component.m_Behaviors.entries ≠ t.component.m_Behaviors.entries → r = true)
          ∧ ∃ t0, RenderBehaviorComponentImGui luaName { frame with browseClicked := false }
                t ref entity = some (r, t0)
              ∧ t0.component = t1.component
              ∧ t0.heap = t1.heap
              ∧ t0.dialogs = t.dialogs
              ∧ (t1.dialogs = t.dialogs ∨ t1.dialogs = t.dialogs ++ [b.GetName.1]))
    ∧ (∀ (name file : String) (queue : List (World → Ran)),
        scriptDialogCallback luaName entity name file queue
          = queue ++ [scriptReplaceTask luaName entity.m_Scene entity.m_EntityHandle
              name file]) := by
  refine ⟨renderEntries_outcome luaName ui entity _ s hvalid, ?_, fun _ _ _ => rfl⟩
  intro frame t ref b hb
  obtain ⟨treeOpen, closeRequested, enabledToggled, browseClicked, reloadClicked⟩ := frame
  obtain ⟨r, t1, h, hr, hf, _, hheap, hdlg, hcomp⟩ :=
    render_outcome luaName ⟨treeOpen, closeRequested, enabledToggled, browseClicked,
      reloadClicked⟩ t ref entity b hb
  obtain ⟨r0, t0, h0, hr0, _, _, hheap0, hdlg0, hcomp0⟩ :=
    render_outcome luaName ⟨treeOpen, closeRequested, enabledToggled, false,
      reloadClicked⟩ t ref entity b hb
  simp only at hr hr0 hheap hheap0 hdlg hdlg0 hcomp hcomp0
  have hrr : r0 = r := hr0.trans hr.symm
  subst hrr
  refine ⟨r0, t1, h, hr, hf, ?_, t0, h0, hcomp0.trans hcomp.symm, hheap0.trans hheap.symm,
    ?_, ?_⟩
  · intro hne
    cases hr0v : r0 with
    | true => rfl
    | false => exact absurd (by rw [hf hr0v]) hne
  · rw [hdlg0]
    simp
  · rw [hdlg]
    split
    · exact Or.inr rfl
    · exact Or.inl rfl

/-- Witness of C11: the registry holds "Move" (scripted, address 0) and "Spin"
(native, address 1); Reload is pressed on "Move".  The pass makes one call, on
"Move", which returns true, and "Spin" is not visited. -/
theorem pass_stops_on_mutation_witness :
    (∀ e ∈ ((StdMap.empty.assign "Move" 0).assign "Spin" 1 : StdMap String Reference).entries,
        e.2 < [IBehavior.ofFile "Move" ⟨7, 0⟩ "move.lua", IBehavior.ofNative "Spin" ⟨7, 0⟩].length)
    ∧ (∃ s2 pre fin,
        RenderComponentImGui (fun _ file => if file = "move.lua" then "Move" else file)
          (fun name => ⟨true, false, false, false, name = "Move"⟩)
          ⟨true, [IBehavior.ofFile "Move" ⟨7, 0⟩ "move.lua", IBehavior.ofNative "Spin" ⟨7, 0⟩],
            ⟨(StdMap.empty.assign "Move" 0).assign "Spin" 1⟩, []⟩ ⟨7, 0⟩
          = some (s2, pre ++ fin))
    ∧ (RenderComponentImGui (fun _ file => if file = "move.lua" then "Move" else file)
          (fun name => ⟨true, false, false, false, name = "Move"⟩)
          ⟨true, [IBehavior.ofFile "Move" ⟨7, 0⟩ "move.lua", IBehavior.ofNative "Spin" ⟨7, 0⟩],
            ⟨(StdMap.empty.assign "Move" 0).assign "Spin" 1⟩, []⟩ ⟨7, 0⟩).map
        (fun r => (r.2.map (fun v => (v.name, v.returned)), r.1.component.m_Behaviors.entries))
        = some ([("Move", true)], [("Move", 2), ("Spin", 1)]) := by
  have hv : ∀ e ∈ ((StdMap.empty.assign "Move" 0).assign "Spin" 1 :
      StdMap String Reference).entries,
      e.2 < [IBehavior.ofFile "Move" ⟨7, 0⟩ "move.lua",
        IBehavior.ofNative "Spin" ⟨7, 0⟩].length := by decide
  obtain ⟨⟨s2, pre, fin, h, _⟩, _⟩ :=
    pass_stops_on_mutation (fun _ file => if file = "move.lua" then "Move" else file)
      (fun name => ⟨true, false, false, false, name = "Move"⟩)
      ⟨true, [IBehavior.ofFile "Move" ⟨7, 0⟩ "move.lua", IBehavior.ofNative "Spin" ⟨7, 0⟩],
        ⟨(StdMap.empty.assign "Move" 0).assign "Spin" 1⟩, []⟩ ⟨7, 0⟩ hv
  exact ⟨hv, ⟨s2, pre, fin, h⟩, by decide⟩

end Wiesel
